import Mathlib

/-!
Verification of the WideOrbit WO Traffic sample-data generator
(data/sample/generate_sample_data.py) through a shallow embedding.

Conventions of the embedding:
* Calendar dates are day numbers (days since 1970-01-01 in the proleptic
  Gregorian calendar).  `daysFromCivil` / `civilFromDays` convert between
  day numbers and (year, month, day), mirroring Python `datetime.date`
  arithmetic (`timedelta` is integer addition, comparison is integer order,
  ISO-string comparison in the source coincides with date order).
* Python floats are modelled as exact rationals.  `round(x, 2)` becomes
  `round2`; Python `round` resolves exact .5 ties to even while Mathlib
  `round` resolves them upward — no statement below depends on a tie.
* Clock times are minutes past midnight.
* The seeded `numpy.random.Generator` is modelled as a record `RNG σ` of
  state-passing primitives; `RNGSpec` records the range guarantees that
  numpy documents for each primitive.  Weighted draws receive their weight
  vector and return an index into the sampled list.
-/

set_option maxRecDepth 8000

namespace WOGen

/-- Day number of a proleptic-Gregorian date, counted from 1970-01-01.
Standard civil-calendar conversion; divisions are floor divisions, as in
Python. -/
def daysFromCivil (y m d : ℤ) : ℤ :=
  let y2 := if m ≤ 2 then y - 1 else y
  let era := Int.fdiv y2 400
  let yoe := y2 - era * 400
  let mp := Int.emod (m + 9) 12
  let doy := Int.fdiv (153 * mp + 2) 5 + d - 1
  let doe := yoe * 365 + Int.fdiv yoe 4 - Int.fdiv yoe 100 + doy
  era * 146097 + doe - 719468

/-- Inverse of `daysFromCivil`: (year, month, day) of a day number. -/
def civilFromDays (z0 : ℤ) : ℤ × ℤ × ℤ :=
  let z := z0 + 719468
  let era := Int.fdiv z 146097
  let doe := z - era * 146097
  let yoe := Int.fdiv (doe - Int.fdiv doe 1460 + Int.fdiv doe 36524 - Int.fdiv doe 146096) 365
  let y := yoe + era * 400
  let doy := doe - (365 * yoe + Int.fdiv yoe 4 - Int.fdiv yoe 100)
  let mp := Int.fdiv (5 * doy + 2) 153
  let d := doy - Int.fdiv (153 * mp + 2) 5 + 1
  let m := if mp < 10 then mp + 3 else mp - 9
  (if m ≤ 2 then y + 1 else y, m, d)

/-- Month (1..12) of a day number, as Python `date.month`. -/
def monthOf (z : ℤ) : ℤ := (civilFromDays z).2.1

/-- Year of a day number, as Python `date.year`. -/
def yearOf (z : ℤ) : ℤ := (civilFromDays z).1

-- ── Station configuration (STATIONS dict) ──────────────────────────────────

/-- The five stations of the broadcast group, in the insertion order of the
source `STATIONS` dict. -/
inductive Station
  | KHQ | KULR | KTMF | KNDO | KWYB
deriving DecidableEq, Repr

/-- The relative market-size weight of each station (the "size" key of the
source `STATIONS` dict). -/
def stationSize : Station → ℚ
  | .KHQ => 0.35
  | .KULR => 0.22
  | .KTMF => 0.18
  | .KNDO => 0.15
  | .KWYB => 0.10

/-- The `list(STATIONS.keys())` order used throughout the source. -/
def station_list : List Station := [.KHQ, .KULR, .KTMF, .KNDO, .KWYB]

/-- Prime (premium daypart) average-unit-rate (low, high) range per station. -/
def PRIME_AUR_RANGES : Station → ℚ × ℚ
  | .KHQ => (400, 1200)
  | .KULR => (300, 900)
  | .KTMF => (250, 800)
  | .KNDO => (200, 700)
  | .KWYB => (150, 500)

-- ── Daypart configuration (DAYPARTS dict) ──────────────────────────────────

/-- The eight daypart codes, in the insertion order of the source
`DAYPARTS` dict. -/
inductive Daypart
  | EM | DT | EF | EN | PA | PR | LN | LF
deriving DecidableEq, Repr

/-- Static per-daypart configuration.  Time windows are minutes past
midnight (`time(6, 0)` is 360). -/
structure DaypartCfg where
  startMin : ℕ
  endMin : ℕ
  revenue_share : ℚ
  base_aur_mult : ℚ
deriving DecidableEq, Repr

def DAYPARTS : Daypart → DaypartCfg
  | .EM => ⟨6 * 60, 9 * 60, 0.065, 0.30⟩
  | .DT => ⟨9 * 60, 16 * 60, 0.09, 0.25⟩
  | .EF => ⟨16 * 60, 17 * 60, 0.04, 0.35⟩
  | .EN => ⟨17 * 60, 18 * 60 + 30, 0.175, 0.65⟩
  | .PA => ⟨18 * 60 + 30, 20 * 60, 0.135, 0.55⟩
  | .PR => ⟨20 * 60, 23 * 60, 0.375, 1.00⟩
  | .LN => ⟨23 * 60, 23 * 60 + 35, 0.09, 0.50⟩
  | .LF => ⟨23 * 60 + 35, 2 * 60, 0.03, 0.15⟩

/-- The `list(DAYPARTS.keys())` order. -/
def daypart_codes : List Daypart := [.EM, .DT, .EF, .EN, .PA, .PR, .LN, .LF]

/-- Raw volume weight of a daypart: `revenue_share / base_aur_mult`. -/
def raw_vol (dp : Daypart) : ℚ := (DAYPARTS dp).revenue_share / (DAYPARTS dp).base_aur_mult

/-- Normalised per-daypart volume weights (`DAYPART_VOLUME_WEIGHTS`). -/
def DAYPART_VOLUME_WEIGHTS (dp : Daypart) : ℚ :=
  raw_vol dp / (daypart_codes.map raw_vol).sum

/-- Target sell-out fraction per daypart (`SELLOUT_TARGETS`). -/
def SELLOUT_TARGETS : Daypart → ℚ
  | .EM => 0.60
  | .DT => 0.55
  | .EF => 0.58
  | .EN => 0.75
  | .PA => 0.72
  | .PR => 0.84
  | .LN => 0.70
  | .LF => 0.45

/-- Year-over-year growth per daypart, 2025 vs 2024 (`YOY_GROWTH`). -/
def YOY_GROWTH : Daypart → ℚ
  | .EM => 0.04
  | .DT => 0.03
  | .EF => 0.04
  | .EN => 0.06
  | .PA => 0.06
  | .PR => 0.08
  | .LN => 0.05
  | .LF => 0.03

-- ── Time range ─────────────────────────────────────────────────────────────

def DATE_START : ℤ := daysFromCivil 2024 1 1
def DATE_END : ℤ := daysFromCivil 2025 3 31

/-- The "today" cutoff (2025-02-15) that separates scheduled from aired. -/
def TODAY_CUTOFF : ℤ := daysFromCivil 2025 2 15

-- ── Spot length distribution ───────────────────────────────────────────────

def SPOT_LENGTHS : List ℕ := [30, 15, 60]
def SPOT_LENGTH_WEIGHTS : List ℚ := [0.70, 0.20, 0.10]

/-- Rate multiplier by spot length.  In the source this is a dict keyed by
the three lengths of `SPOT_LENGTHS`; other keys would raise `KeyError`, so
the default branch is unreachable on the lengths the generator draws. -/
def SPOT_LENGTH_RATE_MULT (len : ℕ) : ℚ :=
  if len = 15 then 0.60 else if len = 30 then 1.00 else if len = 60 then 1.80 else 0

-- ── Seasonal multipliers ───────────────────────────────────────────────────

/-- Seasonal rate multiplier: Q4 +15 percent, Q1 −10, July/August −5. -/
def seasonal_rate_multiplier (d : ℤ) : ℚ :=
  let month := monthOf d
  if month = 10 ∨ month = 11 ∨ month = 12 then 1.15
  else if month = 1 ∨ month = 2 ∨ month = 3 then 0.90
  else if month = 7 ∨ month = 8 then 0.95
  else 1.00

/-- Seasonal volume multiplier: Q4 +20 percent volume, Q1 −15. -/
def seasonal_volume_multiplier (d : ℤ) : ℚ :=
  let month := monthOf d
  if month = 10 ∨ month = 11 ∨ month = 12 then 1.20
  else if month = 1 ∨ month = 2 ∨ month = 3 then 0.85
  else if month = 7 ∨ month = 8 then 0.90
  else 1.00

-- ── The random generator model ─────────────────────────────────────────────

/-- State-passing model of a `numpy.random.Generator` over state type `σ`.
Each field mirrors one primitive the source calls; draws from lists return
an index into the list.  `choiceW` receives the weight vector the source
passes as `p=` (for the per-order station draw the source first maps the
weights through `** 0.5` and normalises; that reshaping affects only the
distribution, which is abstract here).  `choiceNR` models
`choice(range n, size, replace=False, p)`. -/
structure RNG (σ : Type) where
  integers : ℤ → ℤ → σ → ℤ × σ
  random : σ → ℚ × σ
  randomVec : ℕ → σ → List ℚ × σ
  normal : ℚ → ℚ → σ → ℚ × σ
  choiceIdx : ℕ → σ → ℕ × σ
  choiceW : List ℚ → σ → ℕ × σ
  choiceWVec : List ℚ → ℕ → σ → List ℕ × σ
  choiceNR : ℕ → Option (List ℚ) → ℕ → σ → List ℕ × σ

/-- The range guarantees numpy documents for the primitives of `RNG`:
`integers lo hi` lands in `[lo, hi)`, `random` in `[0, 1)`, index draws are
in range, and `replace=False` draws are distinct. -/
structure RNGSpec {σ : Type} (g : RNG σ) : Prop where
  integers_lb : ∀ lo hi s, lo < hi → lo ≤ (g.integers lo hi s).1
  integers_ub : ∀ lo hi s, lo < hi → (g.integers lo hi s).1 < hi
  random_lb : ∀ s, 0 ≤ (g.random s).1
  random_ub : ∀ s, (g.random s).1 < 1
  randomVec_len : ∀ n s, (g.randomVec n s).1.length = n
  randomVec_lb : ∀ n s, ∀ q ∈ (g.randomVec n s).1, 0 ≤ q
  randomVec_ub : ∀ n s, ∀ q ∈ (g.randomVec n s).1, q < 1
  choiceIdx_lt : ∀ n s, 0 < n → (g.choiceIdx n s).1 < n
  choiceW_lt : ∀ w s, 0 < w.length → (g.choiceW w s).1 < w.length
  choiceWVec_len : ∀ w k s, (g.choiceWVec w k s).1.length = k
  choiceWVec_lt : ∀ w k s, 0 < w.length → ∀ i ∈ (g.choiceWVec w k s).1, i < w.length
  choiceNR_len : ∀ n p k s, k ≤ n → (g.choiceNR n p k s).1.length = k
  choiceNR_nodup : ∀ n p k s, k ≤ n → (g.choiceNR n p k s).1.Nodup
  choiceNR_lt : ∀ n p k s, k ≤ n → ∀ i ∈ (g.choiceNR n p k s).1, i < n

/-- A degenerate but specification-conforming generator, used to exercise
the theorems on concrete runs. -/
def trivial_rng : RNG Unit where
  integers := fun lo _ s => (lo, s)
  random := fun s => (0, s)
  randomVec := fun n s => (List.replicate n 0, s)
  normal := fun mu _ s => (mu, s)
  choiceIdx := fun _ s => (0, s)
  choiceW := fun _ s => (0, s)
  choiceWVec := fun _ k s => (List.replicate k 0, s)
  choiceNR := fun _ _ k s => (List.range k, s)

-- ── Rate calculation (calculate_spot_rate) ────────────────────────────────

/-- Rounding to cents: Python `round(x, 2)` on the rational model. -/
def round2 (x : ℚ) : ℚ := (round (x * 100) : ℤ) / 100

/-- Shallow embedding of `calculate_spot_rate`: deterministic multipliers
(prime midpoint, daypart, length, season, year-over-year growth) followed by
clamped multiplicative noise, rounded to cents. -/
def calculate_spot_rate {σ : Type} (g : RNG σ) (station : Station) (daypart : Daypart)
    (len : ℕ) (air_date : ℤ) (s : σ) : ℚ × σ :=
  let pr := PRIME_AUR_RANGES station
  let prime_mid := (pr.1 + pr.2) / 2
  let daypart_mult := (DAYPARTS daypart).base_aur_mult
  let base_rate := prime_mid * daypart_mult
  let length_mult := SPOT_LENGTH_RATE_MULT len
  let season_mult := seasonal_rate_multiplier air_date
  let yoy_mult : ℚ := if 2025 ≤ yearOf air_date then 1 + YOY_GROWTH daypart else 1
  let rate := base_rate * length_mult * season_mult * yoy_mult
  let t := g.normal 1 0.08 s
  let noise := max 0.85 (min 1.15 t.1)
  (round2 (rate * noise), t.2)

-- ── Status resolution (_determine_status) ─────────────────────────────────

/-- Shallow embedding of `_determine_status`.  Future spots are always
`scheduled` with no randomness consumed; otherwise one uniform draw is
banded into preempted / makegood / aired. -/
def determine_status {σ : Type} (g : RNG σ) (air_date : ℤ) (daypart : Daypart)
    (station : Station) (high_preempt_station : Station) (s : σ) : String × σ :=
  if TODAY_CUTOFF < air_date then ("scheduled", s)
  else
    let preempt_chance : ℚ := if daypart = .EN ∨ daypart = .LN then 0.035 else 0.020
    let mg_chance : ℚ := 0.015
    let preempt_chance :=
      if station = high_preempt_station then preempt_chance * 1.8 else preempt_chance
    let mg_chance := if station = high_preempt_station then mg_chance * 1.5 else mg_chance
    let t := g.random s
    if t.1 < preempt_chance then ("preempted", t.2)
    else if t.1 < preempt_chance + mg_chance then ("makegood", t.2)
    else ("aired", t.2)

-- ── Advertiser configuration (generate_advertisers) ───────────────────────

inductive AdvType
  | national | local
deriving DecidableEq, Repr

/-- One advertiser record: name, category, raw weight, and the derived
share (weight over the sum of all weights), filled in by
`generate_advertisers`. -/
structure Advertiser where
  name : String
  type : AdvType
  weight : ℚ
  share : ℚ
deriving DecidableEq, Repr

/-- The literal 15 national + 35 local advertiser rows of the source, with
share not yet computed. -/
def advertiser_base : List Advertiser :=
  [⟨"Pacific Auto Group", .national, 10.0, 0⟩,
   ⟨"Columbia Health Systems", .national, 7.0, 0⟩,
   ⟨"Cascade Insurance", .national, 6.5, 0⟩,
   ⟨"Northwest Wireless", .national, 6.0, 0⟩,
   ⟨"Evergreen Financial", .national, 5.5, 0⟩,
   ⟨"Summit Home Improvement", .national, 5.0, 0⟩,
   ⟨"Olympic Furniture", .national, 4.5, 0⟩,
   ⟨"Rainier Automotive", .national, 4.0, 0⟩,
   ⟨"Puget Sound Energy", .national, 3.5, 0⟩,
   ⟨"Glacier Pharmaceuticals", .national, 3.0, 0⟩,
   ⟨"Timberline Foods", .national, 2.8, 0⟩,
   ⟨"Horizon Telecom", .national, 2.5, 0⟩,
   ⟨"Baker Mountain Sports", .national, 2.2, 0⟩,
   ⟨"Clearwater Legal Group", .national, 2.0, 0⟩,
   ⟨"Alpine Dental Network", .national, 1.8, 0⟩,
   ⟨"Mike\x27s Plumbing & HVAC", .local, 1.5, 0⟩,
   ⟨"Valley Ford", .local, 1.5, 0⟩,
   ⟨"Cascade Eye Clinic", .local, 1.3, 0⟩,
   ⟨"Spokane Spine Center", .local, 1.2, 0⟩,
   ⟨"Heritage Roofing", .local, 1.1, 0⟩,
   ⟨"Lakeside Chevrolet", .local, 1.0, 0⟩,
   ⟨"Pioneer Title & Escrow", .local, 1.0, 0⟩,
   ⟨"Mountain West Credit Union", .local, 0.9, 0⟩,
   ⟨"Cedar Park Veterinary", .local, 0.9, 0⟩,
   ⟨"Inland Empire Paving", .local, 0.8, 0⟩,
   ⟨"Riverfront Dental", .local, 0.8, 0⟩,
   ⟨"Northwest Garage Doors", .local, 0.7, 0⟩,
   ⟨"Cascade Heating & Air", .local, 0.7, 0⟩,
   ⟨"Valley Medical Center", .local, 0.6, 0⟩,
   ⟨"Hilltop Family Law", .local, 0.6, 0⟩,
   ⟨"Grandview Tire & Auto", .local, 0.5, 0⟩,
   ⟨"Sunset Realty Group", .local, 0.5, 0⟩,
   ⟨"Columbia Basin Ag Supply", .local, 0.5, 0⟩,
   ⟨"Maple Street Jewelers", .local, 0.4, 0⟩,
   ⟨"Yakima Valley Winery", .local, 0.4, 0⟩,
   ⟨"Sunnyside RV & Marine", .local, 0.4, 0⟩,
   ⟨"Peak Performance Fitness", .local, 0.3, 0⟩,
   ⟨"Wenatchee Appliance", .local, 0.3, 0⟩,
   ⟨"Tri-Cities Honda", .local, 0.3, 0⟩,
   ⟨"Blue Sky Landscaping", .local, 0.3, 0⟩,
   ⟨"River Park Square Mall", .local, 0.3, 0⟩,
   ⟨"Palouse Country Realty", .local, 0.2, 0⟩,
   ⟨"Desert Sun Tanning", .local, 0.2, 0⟩,
   ⟨"Walla Walla Steakhouse", .local, 0.2, 0⟩,
   ⟨"Cascade Bail Bonds", .local, 0.2, 0⟩,
   ⟨"Kennewick Mattress Outlet", .local, 0.2, 0⟩,
   ⟨"Coeur d\x27Alene Resort", .local, 0.2, 0⟩,
   ⟨"Ellensburg Feed & Seed", .local, 0.15, 0⟩,
   ⟨"Moses Lake Storage", .local, 0.15, 0⟩,
   ⟨"Pullman Pizza Palace", .local, 0.10, 0⟩]

/-- Embedding of `generate_advertisers`: the 50 advertisers with shares
normalised to the weight total.  The source takes the generator but draws
nothing from it. -/
def generate_advertisers {σ : Type} (_g : RNG σ) : List Advertiser :=
  let total_w := (advertiser_base.map Advertiser.weight).sum
  advertiser_base.map (fun a => { a with share := a.weight / total_w })

/-- Embedding of `generate_agencies` (the source's return value is the
plain list of agency names). -/
def generate_agencies : List String :=
  ["Copacino Fujikado", "PB& Seattle", "DNA Agency", "Spokane Media Group",
   "Inland Media Buyers", "Cascade Media Partners", "Northwest Ad Works",
   "Pacific Rim Media"]

/-- Embedding of `generate_programs`: program-name pool per daypart. -/
def programs : Daypart → List String
  | .EM => ["Morning Report", "NW Morning News", "Sunrise Edition", "AM Northwest"]
  | .DT => ["NW Living", "The Talk", "Let\x27s Make a Deal", "The Price Is Right",
            "The Young and the Restless", "Local Hour"]
  | .EF => ["Inside Edition", "Judge Judy", "Hot Bench", "People\x27s Court"]
  | .EN => ["Evening News at 5", "Evening News at 5:30", "Evening News at 6"]
  | .PA => ["Wheel of Fortune", "Jeopardy!", "Entertainment Tonight", "Access Hollywood"]
  | .PR => ["Survivor", "Chicago Fire", "Law & Order", "FBI", "NCIS",
            "The Voice", "60 Minutes", "Sunday Night Football"]
  | .LN => ["Late News at 11", "News Tonight"]
  | .LF => ["The Tonight Show", "Late Show", "Nightline", "Jimmy Kimmel Live"]

-- ── Data rows ──────────────────────────────────────────────────────────────

/-- One order (contract) row.  `order_id` holds the counter value that the
source renders as the zero-padded decimal string "WO-%05d"; that rendering
is injective, so identifier distinctness is the distinctness of the
counters. -/
structure Order where
  order_id : ℕ
  advertiser_name : String
  agency_name : Option String
  order_date : ℤ
  start_date : ℤ
  end_date : ℤ
  order_total : ℚ
  station : Station
deriving DecidableEq, Repr

/-- One spot (placement) row.  `spot_id` holds the counter the source
renders as "SP-%06d"; `air_time` is minutes past midnight (the source
formats it as "%H:%M:%S"). -/
structure Spot where
  spot_id : ℕ
  order_id : ℕ
  air_date : ℤ
  air_time : ℕ
  daypart : Daypart
  program : String
  length : ℕ
  rate : ℚ
  status : String
  station : Station
deriving DecidableEq, Repr

/-- One inventory row, keyed by (station, daypart, date). -/
structure InvRow where
  date : ℤ
  daypart : Daypart
  station : Station
  total_avails : ℤ
  booked : ℕ
  remaining : ℤ
deriving DecidableEq, Repr

-- ── Order generation (generate_orders) ─────────────────────────────────────

def WARMUP_START : ℤ := daysFromCivil 2023 10 1
def total_days : ℤ := DATE_END - DATE_START
def warmup_days : ℤ := DATE_START - WARMUP_START

/-- Earliest admissible order date, `date(2023, 9, 1)`. -/
def SEPT_2023 : ℤ := daysFromCivil 2023 9 1

/-- The `p=local_weights` vector `np.array([0.10, 0.25, 0.25, 0.20, 0.20])`
used when drawing a local advertiser's allowed stations; it is aligned with
`station_list`. -/
def local_weights : List ℚ := [0.10, 0.25, 0.25, 0.20, 0.20]

/-- The probability `local_weights` assigns to a given station (alignment of
the weight vector with `list(STATIONS.keys())`). -/
def local_station_prob (st : Station) : ℚ :=
  ((station_list.zip local_weights).lookup st).getD 0

/-- The five advertiser-share tiers for order counts. -/
def orderCountForShare {σ : Type} (g : RNG σ) (share : ℚ) (s : σ) : ℤ × σ :=
  if 0.06 ≤ share then g.integers 26 40 s
  else if 0.03 ≤ share then g.integers 14 24 s
  else if 0.015 ≤ share then g.integers 8 16 s
  else if 0.008 ≤ share then g.integers 4 10 s
  else g.integers 2 5 s

/-- One iteration of the inner order loop: bump the counter, draw station,
flight and dates, and emit the order unless its clipped flight ends before
the primary range (the source's `continue`).  The station draw passes the
market sizes of the advertiser's stations; the source shapes them by
`** 0.5` and normalises before the draw, which only affects the abstract
distribution. -/
def makeOrder {σ : Type} (g : RNG σ) (adv : Advertiser) (agency : Option String)
    (adv_stations : List Station) (n_orders : ℤ) (n_warmup : ℕ) (i : ℕ)
    (c : ℕ) (s : σ) : Option Order × ℕ × σ :=
  let c1 := c + 1
  let t1 := g.choiceW (adv_stations.map stationSize) s
  let station := adv_stations.getD t1.1 Station.KHQ
  let t2 := g.choiceIdx 9 t1.2
  let flight_weeks := ([1, 2, 4, 4, 8, 8, 13, 13, 13] : List ℤ).getD t2.1 1
  let flight_days := flight_weeks * 7
  let t3 : ℤ × σ :=
    if i < n_warmup then
      let t := g.integers 0 warmup_days t2.2
      (WARMUP_START + t.1, t.2)
    else
      let idx : ℤ := (i : ℤ) - (n_warmup : ℤ)
      let base_offset : ℤ := ⌊(idx : ℚ) / (n_orders : ℚ) * (total_days : ℚ)⌋
      let t := g.integers (-14) 15 t2.2
      let start_offset := max 0 (min (total_days - flight_days) (base_offset + t.1))
      (DATE_START + start_offset, t.2)
  let start_date := t3.1
  let end0 := start_date + flight_days - 1
  let end_date := if DATE_END < end0 then DATE_END else end0
  if end_date < DATE_START then (none, c1, t3.2)
  else
    let t4 := g.integers 1 31 t3.2
    let od0 := start_date - t4.1
    let order_date := if od0 < SEPT_2023 then SEPT_2023 else od0
    (some { order_id := c1, advertiser_name := adv.name, agency_name := agency,
            order_date := order_date, start_date := start_date, end_date := end_date,
            order_total := 0, station := station }, c1, t4.2)

/-- The inner `for i in range(n_orders + n_warmup)` loop of
`generate_orders`, threading counter and generator state. -/
def order_loop {σ : Type} (g : RNG σ) (adv : Advertiser) (agency : Option String)
    (adv_stations : List Station) (n_orders : ℤ) (n_warmup : ℕ) :
    List ℕ → ℕ → σ → List Order × ℕ × σ
  | [], c, s => ([], c, s)
  | i :: rest, c, s =>
    let r := makeOrder g adv agency adv_stations n_orders n_warmup i c s
    let r2 := order_loop g adv agency adv_stations n_orders n_warmup rest r.2.1 r.2.2
    (match r.1 with
     | some o => o :: r2.1
     | none => r2.1, r2.2.1, r2.2.2)

/-- The per-advertiser body of `generate_orders`: order-count tier, agency
assignment (national advertisers always through an agency, locals with
probability 0.55; the Python `or` short-circuits, so locals draw one extra
uniform), allowed-station draw, and the inner loop with
`n_warmup = max(1, int(n_orders * 0.18))` warm-up orders. -/
def orders_for_adv {σ : Type} (g : RNG σ) (agencies : List String) (adv : Advertiser)
    (c : ℕ) (s : σ) : List Order × ℕ × σ :=
  let t0 := orderCountForShare g adv.share s
  let n_orders := t0.1
  let t1 : Option String × σ :=
    if adv.type = AdvType.national then
      let t := g.choiceIdx agencies.length t0.2
      (some (agencies.getD t.1 ""), t.2)
    else
      let tr := g.random t0.2
      if tr.1 < 0.55 then
        let t := g.choiceIdx agencies.length tr.2
        (some (agencies.getD t.1 ""), t.2)
      else (none, tr.2)
  let t2 : List Station × σ :=
    if adv.type = AdvType.national then
      let tn := g.integers 3 6 t1.2
      let ti := g.choiceNR station_list.length none tn.1.toNat tn.2
      (ti.1.map (fun j => station_list.getD j Station.KHQ), ti.2)
    else
      let tn := g.integers 1 3 t1.2
      let ti := g.choiceNR station_list.length (some local_weights) tn.1.toNat tn.2
      (ti.1.map (fun j => station_list.getD j Station.KHQ), ti.2)
  let n_warmup := max 1 (Int.toNat ⌊(n_orders : ℚ) * 0.18⌋)
  order_loop g adv t1.1 t2.1 n_orders n_warmup
    (List.range (n_orders.toNat + n_warmup)) c t2.2

/-- The `for adv in advertisers` spine of `generate_orders`. -/
def orders_rec {σ : Type} (g : RNG σ) (agencies : List String) :
    List Advertiser → ℕ → σ → List Order × ℕ × σ
  | [], c, s => ([], c, s)
  | adv :: rest, c, s =>
    let r := orders_for_adv g agencies adv c s
    let r2 := orders_rec g agencies rest r.2.1 r.2.2
    (r.1 ++ r2.1, r2.2.1, r2.2.2)

/-- Embedding of `generate_orders`; the counter starts at 1000 and the
final counter and generator state are returned for threading. -/
def generate_orders {σ : Type} (advertisers : List Advertiser) (agencies : List String)
    (g : RNG σ) (s : σ) : List Order × ℕ × σ :=
  orders_rec g agencies advertisers 1000 s

-- ── Spot generation (generate_spots) ───────────────────────────────────────

/-- The designated high-preemption station of `generate_spots`. -/
def high_preempt_station : Station := Station.KHQ

/-- Advertiser-name to share lookup (the source's `adv_weights` dict), with
the source's 0.005 default for unknown names. -/
def adv_share_lookup (advertisers : List Advertiser) (nm : String) : ℚ :=
  match advertisers.find? (fun a => a.name == nm) with
  | some a => a.share
  | none => 0.005

/-- The five advertiser-share tiers for spots per week. -/
def spotsPerWeekForShare {σ : Type} (g : RNG σ) (share : ℚ) (s : σ) : ℤ × σ :=
  if 0.06 ≤ share then g.integers 6 14 s
  else if 0.03 ≤ share then g.integers 5 11 s
  else if 0.015 ≤ share then g.integers 3 8 s
  else if 0.008 ≤ share then g.integers 2 6 s
  else g.integers 1 4 s

/-- Embedding of `_random_time_in_daypart`: uniform minute in the window,
with windows wrapping past midnight extended by 24 h before the draw and
reduced modulo one day after it. -/
def random_time_in_daypart {σ : Type} (g : RNG σ) (startMin endMin : ℕ) (s : σ) : ℕ × σ :=
  let start_mins : ℤ := startMin
  let end_mins : ℤ := if (endMin : ℤ) ≤ start_mins then (endMin : ℤ) + 24 * 60 else endMin
  let t := g.integers start_mins end_mins s
  ((Int.emod t.1 (24 * 60)).toNat, t.2)

/-- One spot row for a drawn daypart index: bump the counter, draw air
date inside the clipped flight, air time, length, rate, status and
program. -/
def makeSpot {σ : Type} (g : RNG σ) (order : Order) (effective_start : ℤ)
    (flight_days : ℤ) (dpIdx : ℕ) (c : ℕ) (s : σ) : Spot × ℕ × σ :=
  let c1 := c + 1
  let dp := daypart_codes.getD dpIdx Daypart.EM
  let cfg := DAYPARTS dp
  let t1 := g.integers 0 flight_days s
  let air_date := effective_start + t1.1
  let t2 := random_time_in_daypart g cfg.startMin cfg.endMin t1.2
  let t3 := g.choiceW SPOT_LENGTH_WEIGHTS t2.2
  let len := SPOT_LENGTHS.getD t3.1 30
  let t4 := calculate_spot_rate g order.station dp len air_date t3.2
  let t5 := determine_status g air_date dp order.station high_preempt_station t4.2
  let t6 := g.choiceIdx (programs dp).length t5.2
  let prog := (programs dp).getD t6.1 ""
  ({ spot_id := c1, order_id := order.order_id, air_date := air_date, air_time := t2.1,
     daypart := dp, program := prog, length := len, rate := t4.1, status := t5.1,
     station := order.station }, c1, t6.2)

/-- The inner `for i in range(n_spots)` loop, walking the vector of drawn
daypart indices. -/
def spot_loop {σ : Type} (g : RNG σ) (order : Order) (effective_start : ℤ)
    (flight_days : ℤ) : List ℕ → ℕ → σ → List Spot × ℕ × σ
  | [], c, s => ([], c, s)
  | dpIdx :: rest, c, s =>
    let r := makeSpot g order effective_start flight_days dpIdx c s
    let r2 := spot_loop g order effective_start flight_days rest r.2.1 r.2.2
    (r.1 :: r2.1, r2.2.1, r2.2.2)

/-- The per-order body of `generate_spots`: clip the flight to the primary
range (skipping empty clips), size the spot count from the advertiser tier,
flight length and seasonal volume, draw the daypart assignment vector, and
run the inner loop. -/
def spots_for_order {σ : Type} (g : RNG σ) (advertisers : List Advertiser)
    (order : Order) (c : ℕ) (s : σ) : List Spot × ℕ × σ :=
  let start := order.start_date
  let effective_start := max start DATE_START
  let effective_end := min order.end_date DATE_END
  let flight_days := effective_end - effective_start + 1
  if flight_days ≤ 0 then ([], c, s)
  else
    let adv_share := adv_share_lookup advertisers order.advertiser_name
    let t0 := spotsPerWeekForShare g adv_share s
    let n_spots0 := max 1 (Int.toNat ⌊((t0.1 * flight_days : ℤ) : ℚ) / 7⌋)
    let mid_date := start + Int.fdiv flight_days 2
    let vol_mult := seasonal_volume_multiplier mid_date
    let n_spots := max 1 (Int.toNat ⌊(n_spots0 : ℚ) * vol_mult⌋)
    let daypart_weights := daypart_codes.map DAYPART_VOLUME_WEIGHTS
    let t1 := g.choiceWVec daypart_weights n_spots t0.2
    spot_loop g order effective_start flight_days t1.1 c t1.2

/-- The `for _, order in orders_df.iterrows()` spine of `generate_spots`. -/
def spots_rec {σ : Type} (g : RNG σ) (advertisers : List Advertiser) :
    List Order → ℕ → σ → List Spot × ℕ × σ
  | [], c, s => ([], c, s)
  | o :: rest, c, s =>
    let r := spots_for_order g advertisers o c s
    let r2 := spots_rec g advertisers rest r.2.1 r.2.2
    (r.1 ++ r2.1, r2.2.1, r2.2.2)

/-- Embedding of `generate_spots`; the counter starts at 100000. -/
def generate_spots {σ : Type} (orders_df : List Order) (advertisers : List Advertiser)
    (g : RNG σ) (s : σ) : List Spot × ℕ × σ :=
  spots_rec g advertisers orders_df 100000 s

-- ── Order-total backfill (update_order_totals) ─────────────────────────────

/-- Embedding of `update_order_totals`: each order's total becomes the sum
of the rates of its spots, rounded to cents; the pandas left merge plus
`fillna(0)` leaves 0 for orders with no spots (the sum over the empty
filter). -/
def update_order_totals (orders_df : List Order) (spots_df : List Spot) : List Order :=
  orders_df.map (fun o =>
    let matching := spots_df.filter (fun sp => sp.order_id == o.order_id)
    { o with order_total := round2 ((matching.map Spot.rate).sum) })

-- ── Inventory generation (generate_inventory) ──────────────────────────────

/-- Number of days of `pd.date_range(DATE_START, DATE_END)` (inclusive). -/
def n_days : ℕ := (DATE_END - DATE_START).toNat + 1

/-- The primary-range dates, in order. -/
def all_dates : List ℤ := (List.range n_days).map (fun (i : ℕ) => DATE_START + (i : ℤ))

/-- Booked spots for one (station, daypart, date) cell (the source's
`booked_lookup` built from a groupby size). -/
def booked_on (spots : List Spot) (st : Station) (dp : Daypart) (d : ℤ) : ℕ :=
  spots.countP (fun sp => decide (sp.station = st ∧ sp.daypart = dp ∧ sp.air_date = d))

/-- Total booked spots for one (station, daypart) pair (the source's
`total_booked_map`). -/
def total_booked_of (spots : List Spot) (st : Station) (dp : Daypart) : ℕ :=
  spots.countP (fun sp => decide (sp.station = st ∧ sp.daypart = dp))

/-- Apply the rounding-remainder bumps: position i gains one avail per
occurrence of i among the drawn bump indices (`replace=False` makes them
distinct, so at most one). -/
def bump_extra (idxs : List ℕ) : List ℤ → ℕ → List ℤ
  | [], _ => []
  | x :: xs, i => (x + (idxs.count i : ℤ)) :: bump_extra idxs xs (i + 1)

/-- The extra avails distributed over the days of one (station, daypart)
pair: random weights (uniform draw plus the 0.1 floor, normalised),
truncated shares of the remaining target, and the shortfall bumps.  Returns
the per-day extra list and the generator state; when nothing remains to
add the source skips the whole block, which is the zero vector. -/
def distribute_extra {σ : Type} (g : RNG σ) (remaining_to_add : ℤ) (s : σ) :
    List ℤ × σ :=
  if 0 < remaining_to_add then
    let rv := g.randomVec n_days s
    let raw_weights := rv.1.map (fun x => x + 0.1)
    let norm_weights := raw_weights.map (fun w => w / raw_weights.sum)
    let extra0 : List ℤ := norm_weights.map (fun w => ⌊w * (remaining_to_add : ℚ)⌋)
    let shortfall : ℤ := remaining_to_add - extra0.sum
    if 0 < shortfall then
      let bump := g.choiceNR n_days none shortfall.toNat rv.2
      (bump_extra bump.1 extra0 0, bump.2)
    else (extra0, rv.2)
  else (List.replicate n_days 0, s)

/-- Rows of one (station, daypart) pair from aligned date, booked and
avails lists. -/
def mkInvRows (st : Station) (dp : Daypart) :
    List ℤ → List ℕ → List ℤ → List InvRow
  | d :: ds, b :: bs, a :: as_ =>
    { date := d, daypart := dp, station := st, total_avails := a, booked := b,
      remaining := a - (b : ℤ) } :: mkInvRows st dp ds bs as_
  | _, _, _ => []

/-- The two-pass allocation of `generate_inventory` for one
(station, daypart) pair: pair target from the sell-out table (days-in-range
when nothing is booked), floor pass at the per-day booked counts, then the
distributed top-up. -/
def inventory_pair {σ : Type} (g : RNG σ) (spots : List Spot) (st : Station)
    (dp : Daypart) (s : σ) : List InvRow × σ :=
  let total_booked := total_booked_of spots st dp
  let total_target_avails : ℤ :=
    if 0 < total_booked then round ((total_booked : ℚ) / SELLOUT_TARGETS dp)
    else (n_days : ℤ)
  let day_booked : List ℕ := all_dates.map (booked_on spots st dp)
  let remaining_to_add : ℤ := max 0 (total_target_avails - (day_booked.sum : ℤ))
  let t := distribute_extra g remaining_to_add s
  let day_avails : List ℤ := List.zipWith (fun (b : ℕ) (e : ℤ) => (b : ℤ) + e) day_booked t.1
  (mkInvRows st dp all_dates day_booked day_avails, t.2)

/-- The `for station in STATIONS: for dp_code in DAYPARTS` nest, flattened
row-major. -/
def station_daypart_pairs : List (Station × Daypart) :=
  station_list.flatMap (fun st => daypart_codes.map (fun dp => (st, dp)))

/-- One fold step of `generate_inventory`: append the pair's rows. -/
def inv_step {σ : Type} (g : RNG σ) (spots : List Spot)
    (acc : List InvRow × σ) (p : Station × Daypart) : List InvRow × σ :=
  let t := inventory_pair g spots p.1 p.2 acc.2
  (acc.1 ++ t.1, t.2)

/-- Embedding of `generate_inventory`. -/
def generate_inventory {σ : Type} (spots : List Spot) (g : RNG σ) (s : σ) :
    List InvRow × σ :=
  station_daypart_pairs.foldl (inv_step g spots) ([], s)

-- ── Validation (validate_all) ──────────────────────────────────────────────

/-- Check 1: spots whose order_id matches no order. -/
def invalid_ref_count (orders_df : List Order) (spots_df : List Spot) : ℕ :=
  (spots_df.filter (fun sp => ! orders_df.any (fun o => o.order_id == sp.order_id))).length

/-- The inner join of spots with their orders on order_id (the source's
pandas merge). -/
def merged_pairs (orders_df : List Order) (spots_df : List Spot) : List (Spot × Order) :=
  spots_df.flatMap (fun sp =>
    (orders_df.filter (fun o => o.order_id == sp.order_id)).map (fun o => (sp, o)))

/-- Check 2: joined spots with air_date outside the order flight (the
source compares ISO strings, which orders exactly as day numbers). -/
def out_of_range_count (orders_df : List Order) (spots_df : List Spot) : ℕ :=
  ((merged_pairs orders_df spots_df).filter
    (fun p => decide (p.1.air_date < p.2.start_date ∨ p.2.end_date < p.1.air_date))).length

/-- Check 3: joined spots whose station differs from the order's. -/
def station_mismatch_count (orders_df : List Order) (spots_df : List Spot) : ℕ :=
  ((merged_pairs orders_df spots_df).filter
    (fun p => decide (¬ p.1.station = p.2.station))).length

/-- Check 4: spots with a missing order_id.  The source counts `isna()`
over a column this embedding types as total ℕ, so the count is always 0;
the check itself is still performed and reported. -/
def null_order_count (_spots_df : List Spot) : ℕ := 0

/-- Check 5: inventory rows with negative remaining. -/
def negative_remaining_count (inventory_df : List InvRow) : ℕ :=
  (inventory_df.filter (fun r => decide (r.remaining < 0))).length

/-- Check 6: inventory rows where remaining differs from avails − booked. -/
def remaining_mismatch_count (inventory_df : List InvRow) : ℕ :=
  (inventory_df.filter
    (fun r => decide (¬ r.remaining = r.total_avails - (r.booked : ℤ)))).length

/-- Check 7: future spots not marked scheduled. -/
def future_not_scheduled_count (spots_df : List Spot) : ℕ :=
  (spots_df.filter
    (fun sp => decide (TODAY_CUTOFF < sp.air_date ∧ ¬ sp.status = "scheduled"))).length

/-- The seven check counts, in source order. -/
def check_counts (orders_df : List Order) (spots_df : List Spot)
    (inventory_df : List InvRow) : List ℕ :=
  [invalid_ref_count orders_df spots_df,
   out_of_range_count orders_df spots_df,
   station_mismatch_count orders_df spots_df,
   null_order_count spots_df,
   negative_remaining_count inventory_df,
   remaining_mismatch_count inventory_df,
   future_not_scheduled_count spots_df]

/-- The violation message of each check, including its count, as in the
source log lines. -/
def check_messages (orders_df : List Order) (spots_df : List Spot)
    (inventory_df : List InvRow) : List (ℕ × String) :=
  [(invalid_ref_count orders_df spots_df,
    toString (invalid_ref_count orders_df spots_df) ++ " spots reference invalid order_ids"),
   (out_of_range_count orders_df spots_df,
    toString (out_of_range_count orders_df spots_df) ++
      " spots have air_date outside order flight range"),
   (station_mismatch_count orders_df spots_df,
    toString (station_mismatch_count orders_df spots_df) ++
      " spots have station mismatch with order"),
   (null_order_count spots_df,
    toString (null_order_count spots_df) ++ " spots have null order_id"),
   (negative_remaining_count inventory_df,
    toString (negative_remaining_count inventory_df) ++
      " inventory rows have negative remaining"),
   (remaining_mismatch_count inventory_df,
    toString (remaining_mismatch_count inventory_df) ++
      " inventory rows: remaining != total_avails - booked"),
   (future_not_scheduled_count spots_df,
    toString (future_not_scheduled_count spots_df) ++
      " future spots not marked as \x27scheduled\x27")]

/-- Embedding of `validate_all`: every check is evaluated, each failing
check appends exactly one message to the error list (the source's
sequential `errors.append` calls), and the run passes exactly when the
list stayed empty.  The source logs the messages and returns only the
boolean; the embedding returns both. -/
def validate_all (orders_df : List Order) (spots_df : List Spot)
    (inventory_df : List InvRow) : Bool × List String :=
  let errors := (check_messages orders_df spots_df inventory_df).foldl
    (fun acc ck => if 0 < ck.1 then acc ++ [ck.2] else acc) []
  (errors.isEmpty, errors)

-- ── The full pipeline (main, steps 1-5) ────────────────────────────────────

/-- The generation pipeline of `main` after seeding: advertisers, orders,
spots, order-total backfill and inventory, with one generator state
threaded through every stage. -/
def run_pipeline {σ : Type} (g : RNG σ) (init : ℤ → σ) (seed : ℤ) :
    List Order × List Spot × List InvRow :=
  let s0 := init seed
  let advertisers := generate_advertisers g
  let agencies := generate_agencies
  let r1 := generate_orders advertisers agencies g s0
  let r2 := generate_spots r1.1 advertisers g r1.2.2
  let orders_df := update_order_totals r1.1 r2.1
  let r3 := generate_inventory r2.1 g r2.2.2
  (orders_df, r2.1, r3.1)

-- ════════════════════════════════ Theorems ════════════════════════════════

theorem trivial_rng_spec : RNGSpec trivial_rng := by
  constructor
  · intro lo hi _ _; exact le_refl lo
  · intro lo hi _ h; exact h
  · intro _; exact le_refl 0
  · intro _; exact one_pos
  · intro n _; exact List.length_replicate n 0
  · intro n _ q hq; rw [List.eq_of_mem_replicate hq]
  · intro n _ q hq; rw [List.eq_of_mem_replicate hq]; exact one_pos
  · intro n _ h; exact h
  · intro w _ h; exact h
  · intro w k _; exact List.length_replicate k 0
  · intro w k _ h i hi; rw [List.eq_of_mem_replicate hi]; exact h
  · intro n p k _ h; exact List.length_range k
  · intro n p k _ h; exact List.nodup_range k
  · intro n p k _ h i hi; exact lt_of_lt_of_le (List.mem_range.mp hi) h

-- ── Generic list helpers ───────────────────────────────────────────────────

theorem qsum_map_div {α : Type} (l : List α) (f : α → ℚ) (c : ℚ) :
    (l.map (fun x => f x / c)).sum = (l.map f).sum / c := by
  induction l with
  | nil => simp
  | cons a t ih => simp [ih, add_div]

theorem qsum_map_le {α : Type} (l : List α) (f h : α → ℚ)
    (hle : ∀ x ∈ l, f x ≤ h x) : (l.map f).sum ≤ (l.map h).sum := by
  induction l with
  | nil => simp
  | cons a t ih =>
    simp only [List.map_cons, List.sum_cons]
    have h1 := hle a (List.mem_cons_self a t)
    have h2 := ih (fun x hx => hle x (List.mem_cons_of_mem a hx))
    linarith

theorem round2_nonneg {x : ℚ} (h : 0 ≤ x) : 0 ≤ round2 x := by
  unfold round2
  have h1 : (0 : ℤ) ≤ round (x * 100) := by
    rw [round_eq]
    exact Int.le_floor.mpr (by push_cast; linarith)
  have h2 : ((0 : ℤ) : ℚ) ≤ ((round (x * 100) : ℤ) : ℚ) := Int.cast_le.mpr h1
  simpa using div_nonneg (by simpa using h2) (by norm_num : (0 : ℚ) ≤ 100)

-- ── C7: the rate formula ───────────────────────────────────────────────────

/-- C7: for every station, daypart, admissible spot length and air date,
`calculate_spot_rate` returns the product of the noise-free base — prime
midpoint × daypart multiplier × length multiplier × seasonal multiplier ×
year-over-year multiplier for 2025 and later — with the normal noise
clamped to [0.85, 1.15] applied as the final factor, rounded to cents, and
that rate is non-negative. -/
theorem spot_rate_formula {σ : Type} (g : RNG σ) (st : Station) (dp : Daypart)
    (len : ℕ) (d : ℤ) (s : σ) (hlen : len ∈ SPOT_LENGTHS) :
    (calculate_spot_rate g st dp len d s).1 =
      round2 (((PRIME_AUR_RANGES st).1 + (PRIME_AUR_RANGES st).2) / 2 *
        (DAYPARTS dp).base_aur_mult * SPOT_LENGTH_RATE_MULT len *
        seasonal_rate_multiplier d *
        (if 2025 ≤ yearOf d then 1 + YOY_GROWTH dp else 1) *
        max 0.85 (min 1.15 (g.normal 1 0.08 s).1)) ∧
    0.85 ≤ max 0.85 (min 1.15 (g.normal 1 0.08 s).1) ∧
    max 0.85 (min 1.15 (g.normal 1 0.08 s).1) ≤ 1.15 ∧
    0 ≤ (calculate_spot_rate g st dp len d s).1 := by
  have hbase : (0 : ℚ) ≤ ((PRIME_AUR_RANGES st).1 + (PRIME_AUR_RANGES st).2) / 2 *
      (DAYPARTS dp).base_aur_mult := by
    cases st <;> cases dp <;> norm_num [PRIME_AUR_RANGES, DAYPARTS]
  have hlenm : (0 : ℚ) ≤ SPOT_LENGTH_RATE_MULT len := by
    simp only [SPOT_LENGTHS, List.mem_cons, List.not_mem_nil, or_false] at hlen
    rcases hlen with h | h | h <;> subst h <;> norm_num [SPOT_LENGTH_RATE_MULT]
  have hseason : (0 : ℚ) ≤ seasonal_rate_multiplier d := by
    simp only [seasonal_rate_multiplier]
    split_ifs <;> norm_num
  have hyoy : (0 : ℚ) ≤ (if 2025 ≤ yearOf d then 1 + YOY_GROWTH dp else 1) := by
    split_ifs
    · cases dp <;> norm_num [YOY_GROWTH]
    · norm_num
  have hnoise : (0 : ℚ) ≤ max 0.85 (min 1.15 (g.normal 1 0.08 s).1) :=
    le_trans (by norm_num) (le_max_left _ _)
  have hub : min 1.15 (g.normal 1 0.08 s).1 ≤ (1.15 : ℚ) := min_le_left _ _
  refine ⟨rfl, le_max_left _ _, max_le (by norm_num) hub, ?_⟩
  exact round2_nonneg
    (mul_nonneg (mul_nonneg (mul_nonneg (mul_nonneg (by simpa using hbase) hlenm)
      hseason) hyoy) hnoise)

/-- Concrete instantiation of the rate-formula theorem. -/
theorem spot_rate_formula_witness :
    30 ∈ SPOT_LENGTHS ∧
    0 ≤ (calculate_spot_rate trivial_rng Station.KHQ Daypart.EM 30
          (daysFromCivil 2025 3 1) ()).1 :=
  ⟨by decide,
   (spot_rate_formula trivial_rng Station.KHQ Daypart.EM 30
     (daysFromCivil 2025 3 1) () (by decide)).2.2.2⟩

-- ── Order-loop bookkeeping ─────────────────────────────────────────────────

theorem makeOrder_counter {σ : Type} (g : RNG σ) (adv : Advertiser)
    (agency : Option String) (sts : List Station) (no : ℤ) (nw i c : ℕ) (s : σ) :
    (makeOrder g adv agency sts no nw i c s).2.1 = c + 1 := by
  simp only [makeOrder]
  repeat' split
  all_goals rfl

theorem makeOrder_id {σ : Type} (g : RNG σ) (adv : Advertiser)
    (agency : Option String) (sts : List Station) (no : ℤ) (nw i c : ℕ) (s : σ) :
    ∀ o : Order, (makeOrder g adv agency sts no nw i c s).1 = some o →
      o.order_id = c + 1 := by
  intro o h
  simp only [makeOrder] at h
  repeat' split at h
  all_goals dsimp only at h
  all_goals
    first
    | (rw [Option.some_inj] at h; rw [← h])
    | exact absurd h (by simp)

theorem order_loop_counter_mono {σ : Type} (g : RNG σ) (adv : Advertiser)
    (agency : Option String) (sts : List Station) (no : ℤ) (nw : ℕ) :
    ∀ (l : List ℕ) (c : ℕ) (s : σ),
      c ≤ (order_loop g adv agency sts no nw l c s).2.1 := by
  intro l
  induction l with
  | nil => intro c s; exact le_refl c
  | cons i rest ih =>
    intro c s
    have h1 := makeOrder_counter g adv agency sts no nw i c s
    have h2 := ih (makeOrder g adv agency sts no nw i c s).2.1
      (makeOrder g adv agency sts no nw i c s).2.2
    simp only [order_loop]
    omega

theorem order_loop_mem_id {σ : Type} (g : RNG σ) (adv : Advertiser)
    (agency : Option String) (sts : List Station) (no : ℤ) (nw : ℕ) :
    ∀ (l : List ℕ) (c : ℕ) (s : σ),
      ∀ o ∈ (order_loop g adv agency sts no nw l c s).1,
        c < o.order_id ∧ o.order_id ≤ (order_loop g adv agency sts no nw l c s).2.1 := by
  intro l
  induction l with
  | nil => intro c s o ho; exact absurd ho (List.not_mem_nil o)
  | cons i rest ih =>
    intro c s o ho
    have hc := makeOrder_counter g adv agency sts no nw i c s
    have hmono := order_loop_counter_mono g adv agency sts no nw rest
      (makeOrder g adv agency sts no nw i c s).2.1
      (makeOrder g adv agency sts no nw i c s).2.2
    simp only [order_loop] at ho ⊢
    revert ho
    rcases hopt : (makeOrder g adv agency sts no nw i c s).1 with _ | o1
    · intro ho
      have := ih _ _ o ho
      omega
    · intro ho
      rcases List.mem_cons.mp ho with h | h
      · subst h
        have hid := makeOrder_id g adv agency sts no nw i c s o hopt
        omega
      · have := ih _ _ o h
        omega

theorem order_loop_pairwise {σ : Type} (g : RNG σ) (adv : Advertiser)
    (agency : Option String) (sts : List Station) (no : ℤ) (nw : ℕ) :
    ∀ (l : List ℕ) (c : ℕ) (s : σ),
      ((order_loop g adv agency sts no nw l c s).1.map Order.order_id).Pairwise (· < ·) := by
  intro l
  induction l with
  | nil => intro c s; simp [order_loop]
  | cons i rest ih =>
    intro c s
    have hc := makeOrder_counter g adv agency sts no nw i c s
    simp only [order_loop]
    rcases hopt : (makeOrder g adv agency sts no nw i c s).1 with _ | o1
    · exact ih _ _
    · simp only [List.map_cons, List.pairwise_cons]
      constructor
      · intro b hb
        rcases List.mem_map.mp hb with ⟨o2, ho2, rfl⟩
        have h2 := order_loop_mem_id g adv agency sts no nw rest _ _ o2 ho2
        have hid := makeOrder_id g adv agency sts no nw i c s o1 hopt
        omega
      · exact ih _ _

theorem orders_for_adv_counter_mono {σ : Type} (g : RNG σ) (agencies : List String)
    (adv : Advertiser) (c : ℕ) (s : σ) :
    c ≤ (orders_for_adv g agencies adv c s).2.1 :=
  order_loop_counter_mono g adv _ _ _ _ _ c _

theorem orders_for_adv_mem_id {σ : Type} (g : RNG σ) (agencies : List String)
    (adv : Advertiser) (c : ℕ) (s : σ) :
    ∀ o ∈ (orders_for_adv g agencies adv c s).1,
      c < o.order_id ∧ o.order_id ≤ (orders_for_adv g agencies adv c s).2.1 :=
  order_loop_mem_id g adv _ _ _ _ _ c _

theorem orders_for_adv_pairwise {σ : Type} (g : RNG σ) (agencies : List String)
    (adv : Advertiser) (c : ℕ) (s : σ) :
    ((orders_for_adv g agencies adv c s).1.map Order.order_id).Pairwise (· < ·) :=
  order_loop_pairwise g adv _ _ _ _ _ c _

theorem orders_rec_counter_mono {σ : Type} (g : RNG σ) (agencies : List String) :
    ∀ (advs : List Advertiser) (c : ℕ) (s : σ),
      c ≤ (orders_rec g agencies advs c s).2.1 := by
  intro advs
  induction advs with
  | nil => intro c s; exact le_refl c
  | cons adv rest ih =>
    intro c s
    have h1 := orders_for_adv_counter_mono g agencies adv c s
    have h2 := ih (orders_for_adv g agencies adv c s).2.1
      (orders_for_adv g agencies adv c s).2.2
    simp only [orders_rec]
    omega

theorem orders_rec_mem_id {σ : Type} (g : RNG σ) (agencies : List String) :
    ∀ (advs : List Advertiser) (c : ℕ) (s : σ),
      ∀ o ∈ (orders_rec g agencies advs c s).1,
        c < o.order_id ∧ o.order_id ≤ (orders_rec g agencies advs c s).2.1 := by
  intro advs
  induction advs with
  | nil => intro c s o ho; exact absurd ho (List.not_mem_nil o)
  | cons adv rest ih =>
    intro c s o ho
    have hmono1 := orders_for_adv_counter_mono g agencies adv c s
    have hmono2 := orders_rec_counter_mono g agencies rest
      (orders_for_adv g agencies adv c s).2.1 (orders_for_adv g agencies adv c s).2.2
    simp only [orders_rec] at ho ⊢
    rcases List.mem_append.mp ho with h | h
    · have := orders_for_adv_mem_id g agencies adv c s o h
      omega
    · have := ih _ _ o h
      omega

theorem orders_rec_pairwise {σ : Type} (g : RNG σ) (agencies : List String) :
    ∀ (advs : List Advertiser) (c : ℕ) (s : σ),
      ((orders_rec g agencies advs c s).1.map Order.order_id).Pairwise (· < ·) := by
  intro advs
  induction advs with
  | nil => intro c s; simp [orders_rec]
  | cons adv rest ih =>
    intro c s
    simp only [orders_rec, List.map_append]
    refine (List.pairwise_append).mpr ⟨orders_for_adv_pairwise g agencies adv c s, ih _ _, ?_⟩
    intro a ha b hb
    rcases List.mem_map.mp ha with ⟨o1, ho1, rfl⟩
    rcases List.mem_map.mp hb with ⟨o2, ho2, rfl⟩
    have h1 := orders_for_adv_mem_id g agencies adv c s o1 ho1
    have h2 := orders_rec_mem_id g agencies rest _ _ o2 ho2
    omega

/-- The order identifiers of one `generate_orders` run are strictly
increasing, hence pairwise distinct. -/
theorem generate_orders_ids_nodup {σ : Type} (g : RNG σ) (advs : List Advertiser)
    (agencies : List String) (s : σ) :
    ((generate_orders advs agencies g s).1.map Order.order_id).Nodup := by
  have h := orders_rec_pairwise g agencies advs 1000 s
  exact h.imp (fun hlt => Nat.ne_of_lt hlt)

-- ── Spot-loop bookkeeping ──────────────────────────────────────────────────

theorem determine_status_future {σ : Type} (g : RNG σ) (d : ℤ) (dp : Daypart)
    (st hp : Station) (s : σ) (h : TODAY_CUTOFF < d) :
    determine_status g d dp st hp s = ("scheduled", s) := by
  simp only [determine_status, if_pos h]

theorem makeSpot_counter {σ : Type} (g : RNG σ) (o : Order) (es fd : ℤ)
    (i c : ℕ) (s : σ) : (makeSpot g o es fd i c s).2.1 = c + 1 := rfl

theorem makeSpot_props {σ : Type} (g : RNG σ) (hg : RNGSpec g) (o : Order)
    (es fd : ℤ) (hfd : 0 < fd) (i c : ℕ) (s : σ) :
    (makeSpot g o es fd i c s).1.spot_id = c + 1 ∧
    (makeSpot g o es fd i c s).1.order_id = o.order_id ∧
    (makeSpot g o es fd i c s).1.station = o.station ∧
    es ≤ (makeSpot g o es fd i c s).1.air_date ∧
    (makeSpot g o es fd i c s).1.air_date ≤ es + fd - 1 ∧
    (TODAY_CUTOFF < (makeSpot g o es fd i c s).1.air_date →
      (makeSpot g o es fd i c s).1.status = "scheduled") := by
  have h1 := hg.integers_lb 0 fd s hfd
  have h2 := hg.integers_ub 0 fd s hfd
  refine ⟨rfl, rfl, rfl, by simp only [makeSpot]; omega, by simp only [makeSpot]; omega, ?_⟩
  intro h
  simp only [makeSpot] at h ⊢
  rw [determine_status_future g _ _ _ _ _ h]

theorem spot_loop_mem_props {σ : Type} (g : RNG σ) (hg : RNGSpec g) (o : Order)
    (es fd : ℤ) (hfd : 0 < fd) :
    ∀ (l : List ℕ) (c : ℕ) (s : σ), ∀ sp ∈ (spot_loop g o es fd l c s).1,
      sp.order_id = o.order_id ∧ sp.station = o.station ∧
      es ≤ sp.air_date ∧ sp.air_date ≤ es + fd - 1 ∧
      (TODAY_CUTOFF < sp.air_date → sp.status = "scheduled") := by
  intro l
  induction l with
  | nil => intro c s sp hsp; exact absurd hsp (List.not_mem_nil sp)
  | cons i rest ih =>
    intro c s sp hsp
    simp only [spot_loop] at hsp
    rcases List.mem_cons.mp hsp with h | h
    · subst h
      have := makeSpot_props g hg o es fd hfd i c s
      exact ⟨this.2.1, this.2.2.1, this.2.2.2.1, this.2.2.2.2.1, this.2.2.2.2.2⟩
    · exact ih _ _ sp h

theorem spot_loop_counter_mono {σ : Type} (g : RNG σ) (o : Order) (es fd : ℤ) :
    ∀ (l : List ℕ) (c : ℕ) (s : σ), c ≤ (spot_loop g o es fd l c s).2.1 := by
  intro l
  induction l with
  | nil => intro c s; exact le_refl c
  | cons i rest ih =>
    intro c s
    have h2 := ih (makeSpot g o es fd i c s).2.1 (makeSpot g o es fd i c s).2.2
    have h1 := makeSpot_counter g o es fd i c s
    simp only [spot_loop]
    omega

theorem spot_loop_mem_id {σ : Type} (g : RNG σ) (o : Order) (es fd : ℤ) :
    ∀ (l : List ℕ) (c : ℕ) (s : σ), ∀ sp ∈ (spot_loop g o es fd l c s).1,
      c < sp.spot_id ∧ sp.spot_id ≤ (spot_loop g o es fd l c s).2.1 := by
  intro l
  induction l with
  | nil => intro c s sp hsp; exact absurd hsp (List.not_mem_nil sp)
  | cons i rest ih =>
    intro c s sp hsp
    have hc := makeSpot_counter g o es fd i c s
    have hmono := spot_loop_counter_mono g o es fd rest
      (makeSpot g o es fd i c s).2.1 (makeSpot g o es fd i c s).2.2
    simp only [spot_loop] at hsp ⊢
    rcases List.mem_cons.mp hsp with h | h
    · have hid : sp.spot_id = c + 1 := by rw [h]; rfl
      omega
    · have := ih _ _ sp h
      omega

theorem spot_loop_pairwise {σ : Type} (g : RNG σ) (o : Order) (es fd : ℤ) :
    ∀ (l : List ℕ) (c : ℕ) (s : σ),
      ((spot_loop g o es fd l c s).1.map Spot.spot_id).Pairwise (· < ·) := by
  intro l
  induction l with
  | nil => intro c s; simp [spot_loop]
  | cons i rest ih =>
    intro c s
    have hc := makeSpot_counter g o es fd i c s
    simp only [spot_loop, List.map_cons, List.pairwise_cons]
    constructor
    · intro b hb
      rcases List.mem_map.mp hb with ⟨sp2, hsp2, rfl⟩
      have h2 := spot_loop_mem_id g o es fd rest _ _ sp2 hsp2
      have hid : (makeSpot g o es fd i c s).1.spot_id = c + 1 := rfl
      omega
    · exact ih _ _

theorem spots_for_order_mem {σ : Type} (g : RNG σ) (hg : RNGSpec g)
    (advs : List Advertiser) (o : Order) (c : ℕ) (s : σ) :
    ∀ sp ∈ (spots_for_order g advs o c s).1,
      sp.order_id = o.order_id ∧ sp.station = o.station ∧
      o.start_date ≤ sp.air_date ∧ sp.air_date ≤ o.end_date ∧
      DATE_START ≤ sp.air_date ∧ sp.air_date ≤ DATE_END ∧
      (TODAY_CUTOFF < sp.air_date → sp.status = "scheduled") := by
  intro sp hsp
  simp only [spots_for_order] at hsp
  split at hsp
  · exact absurd hsp (List.not_mem_nil sp)
  · rename_i hfd
    have hfd' : 0 < min o.end_date DATE_END - max o.start_date DATE_START + 1 := by omega
    have h := spot_loop_mem_props g hg o (max o.start_date DATE_START)
      (min o.end_date DATE_END - max o.start_date DATE_START + 1) hfd' _ _ _ sp hsp
    have hs1 : o.start_date ≤ max o.start_date DATE_START := le_max_left _ _
    have hs2 : DATE_START ≤ max o.start_date DATE_START := le_max_right _ _
    have he1 : min o.end_date DATE_END ≤ o.end_date := min_le_left _ _
    have he2 : min o.end_date DATE_END ≤ DATE_END := min_le_right _ _
    exact ⟨h.1, h.2.1, by omega, by omega, by omega, by omega, h.2.2.2.2⟩

theorem spots_for_order_counter_mono {σ : Type} (g : RNG σ) (advs : List Advertiser)
    (o : Order) (c : ℕ) (s : σ) : c ≤ (spots_for_order g advs o c s).2.1 := by
  simp only [spots_for_order]
  split
  · exact le_refl c
  · exact spot_loop_counter_mono g o _ _ _ c _

theorem spots_for_order_mem_id {σ : Type} (g : RNG σ) (advs : List Advertiser)
    (o : Order) (c : ℕ) (s : σ) :
    ∀ sp ∈ (spots_for_order g advs o c s).1,
      c < sp.spot_id ∧ sp.spot_id ≤ (spots_for_order g advs o c s).2.1 := by
  intro sp hsp
  simp only [spots_for_order] at hsp ⊢
  split at hsp
  · exact absurd hsp (List.not_mem_nil sp)
  · rename_i hfd
    rw [if_neg hfd]
    exact spot_loop_mem_id g o _ _ _ c _ sp hsp

theorem spots_for_order_pairwise {σ : Type} (g : RNG σ) (advs : List Advertiser)
    (o : Order) (c : ℕ) (s : σ) :
    ((spots_for_order g advs o c s).1.map Spot.spot_id).Pairwise (· < ·) := by
  simp only [spots_for_order]
  split
  · simp
  · exact spot_loop_pairwise g o _ _ _ c _

theorem spots_rec_counter_mono {σ : Type} (g : RNG σ) (advs : List Advertiser) :
    ∀ (orders : List Order) (c : ℕ) (s : σ),
      c ≤ (spots_rec g advs orders c s).2.1 := by
  intro orders
  induction orders with
  | nil => intro c s; exact le_refl c
  | cons o rest ih =>
    intro c s
    have h1 := spots_for_order_counter_mono g advs o c s
    have h2 := ih (spots_for_order g advs o c s).2.1 (spots_for_order g advs o c s).2.2
    simp only [spots_rec]
    omega

theorem spots_rec_mem_id {σ : Type} (g : RNG σ) (advs : List Advertiser) :
    ∀ (orders : List Order) (c : ℕ) (s : σ),
      ∀ sp ∈ (spots_rec g advs orders c s).1,
        c < sp.spot_id ∧ sp.spot_id ≤ (spots_rec g advs orders c s).2.1 := by
  intro orders
  induction orders with
  | nil => intro c s sp hsp; exact absurd hsp (List.not_mem_nil sp)
  | cons o rest ih =>
    intro c s sp hsp
    have hmono1 := spots_for_order_counter_mono g advs o c s
    have hmono2 := spots_rec_counter_mono g advs rest
      (spots_for_order g advs o c s).2.1 (spots_for_order g advs o c s).2.2
    simp only [spots_rec] at hsp ⊢
    rcases List.mem_append.mp hsp with h | h
    · have := spots_for_order_mem_id g advs o c s sp h
      omega
    · have := ih _ _ sp h
      omega

theorem spots_rec_pairwise {σ : Type} (g : RNG σ) (advs : List Advertiser) :
    ∀ (orders : List Order) (c : ℕ) (s : σ),
      ((spots_rec g advs orders c s).1.map Spot.spot_id).Pairwise (· < ·) := by
  intro orders
  induction orders with
  | nil => intro c s; simp [spots_rec]
  | cons o rest ih =>
    intro c s
    simp only [spots_rec, List.map_append]
    refine (List.pairwise_append).mpr ⟨spots_for_order_pairwise g advs o c s, ih _ _, ?_⟩
    intro a ha b hb
    rcases List.mem_map.mp ha with ⟨sp1, hsp1, rfl⟩
    rcases List.mem_map.mp hb with ⟨sp2, hsp2, rfl⟩
    have h1 := spots_for_order_mem_id g advs o c s sp1 hsp1
    have h2 := spots_rec_mem_id g advs rest _ _ sp2 hsp2
    omega

/-- Every generated spot comes with an originating order from the input
list, carries its identifier and station, and lies in its clipped flight. -/
theorem spots_rec_mem_origin {σ : Type} (g : RNG σ) (hg : RNGSpec g)
    (advs : List Advertiser) :
    ∀ (orders : List Order) (c : ℕ) (s : σ),
      ∀ sp ∈ (spots_rec g advs orders c s).1,
        ∃ o ∈ orders, sp.order_id = o.order_id ∧ sp.station = o.station ∧
          o.start_date ≤ sp.air_date ∧ sp.air_date ≤ o.end_date ∧
          DATE_START ≤ sp.air_date ∧ sp.air_date ≤ DATE_END ∧
          (TODAY_CUTOFF < sp.air_date → sp.status = "scheduled") := by
  intro orders
  induction orders with
  | nil => intro c s sp hsp; exact absurd hsp (List.not_mem_nil sp)
  | cons o rest ih =>
    intro c s sp hsp
    simp only [spots_rec] at hsp
    rcases List.mem_append.mp hsp with h | h
    · exact ⟨o, List.mem_cons_self o rest, spots_for_order_mem g hg advs o c s sp h⟩
    · rcases ih _ _ sp h with ⟨o2, ho2, hprops⟩
      exact ⟨o2, List.mem_cons_of_mem o ho2, hprops⟩

/-- Future-dated spots are scheduled, independently of any range
guarantee on the generator. -/
theorem makeSpot_status_future {σ : Type} (g : RNG σ) (o : Order) (es fd : ℤ)
    (i c : ℕ) (s : σ) (h : TODAY_CUTOFF < (makeSpot g o es fd i c s).1.air_date) :
    (makeSpot g o es fd i c s).1.status = "scheduled" := by
  simp only [makeSpot] at h ⊢
  rw [determine_status_future g _ _ _ _ _ h]

theorem spot_loop_status {σ : Type} (g : RNG σ) (o : Order) (es fd : ℤ) :
    ∀ (l : List ℕ) (c : ℕ) (s : σ), ∀ sp ∈ (spot_loop g o es fd l c s).1,
      TODAY_CUTOFF < sp.air_date → sp.status = "scheduled" := by
  intro l
  induction l with
  | nil => intro c s sp hsp; exact absurd hsp (List.not_mem_nil sp)
  | cons i rest ih =>
    intro c s sp hsp
    simp only [spot_loop] at hsp
    rcases List.mem_cons.mp hsp with h | h
    · subst h
      exact makeSpot_status_future g o es fd i c s
    · exact ih _ _ sp h

theorem spots_rec_status {σ : Type} (g : RNG σ) (advs : List Advertiser) :
    ∀ (orders : List Order) (c : ℕ) (s : σ),
      ∀ sp ∈ (spots_rec g advs orders c s).1,
        TODAY_CUTOFF < sp.air_date → sp.status = "scheduled" := by
  intro orders
  induction orders with
  | nil => intro c s sp hsp; exact absurd hsp (List.not_mem_nil sp)
  | cons o rest ih =>
    intro c s sp hsp
    simp only [spots_rec] at hsp
    rcases List.mem_append.mp hsp with h | h
    · revert h
      simp only [spots_for_order]
      split
      · intro h; exact absurd h (List.not_mem_nil sp)
      · intro h; exact spot_loop_status g o _ _ _ _ _ sp h
    · exact ih _ _ sp h

-- ── C2: flight containment ─────────────────────────────────────────────────

/-- C2: every spot that `generate_spots` produces from the orders of a
`generate_orders` run has its air date inside the owning order's flight
window: `order.start_date ≤ spot.air_date ≤ order.end_date`. -/
theorem spots_within_flight {σ : Type} (g : RNG σ) (hg : RNGSpec g)
    (advs : List Advertiser) (ags : List String) (s0 s1 : σ) :
    ∀ sp ∈ (generate_spots (generate_orders advs ags g s0).1 advs g s1).1,
      ∀ o ∈ (generate_orders advs ags g s0).1,
        sp.order_id = o.order_id →
        o.start_date ≤ sp.air_date ∧ sp.air_date ≤ o.end_date := by
  intro sp hsp o ho hid
  rcases spots_rec_mem_origin g hg advs _ _ _ sp hsp with
    ⟨o2, ho2, h1, _, h3, h4, _, _, _⟩
  have hnd := generate_orders_ids_nodup g advs ags s0
  have heq : o = o2 :=
    List.inj_on_of_nodup_map hnd ho ho2 (by rw [← hid, ← h1])
  subst heq
  exact ⟨h3, h4⟩

/-- Concrete instantiation of flight containment: the flight-containment
property of the full one-advertiser run with the specification-conforming
degenerate generator. -/
theorem spots_within_flight_witness :
    RNGSpec trivial_rng ∧
    (∀ sp ∈ (generate_spots
        (generate_orders [⟨"Tiny Adv", AdvType.local, 0.10, 0.001⟩] generate_agencies
          trivial_rng ()).1
        [⟨"Tiny Adv", AdvType.local, 0.10, 0.001⟩] trivial_rng ()).1,
      ∀ o ∈ (generate_orders [⟨"Tiny Adv", AdvType.local, 0.10, 0.001⟩] generate_agencies
          trivial_rng ()).1,
        sp.order_id = o.order_id →
        o.start_date ≤ sp.air_date ∧ sp.air_date ≤ o.end_date) :=
  ⟨trivial_rng_spec,
   spots_within_flight trivial_rng trivial_rng_spec
     [⟨"Tiny Adv", AdvType.local, 0.10, 0.001⟩] generate_agencies () ()⟩

-- ── C5: the future-scheduling rule ─────────────────────────────────────────

/-- C5: a spot dated strictly after the today cutoff is always `scheduled`:
the status resolver returns that answer with the generator state untouched
(no randomness consumed), and consequently every generated spot with a
future air date carries status "scheduled". -/
theorem future_spots_scheduled {σ : Type} (g : RNG σ) :
    (∀ (d : ℤ) (dp : Daypart) (st hp : Station) (s : σ), TODAY_CUTOFF < d →
        determine_status g d dp st hp s = ("scheduled", s)) ∧
    (∀ (orders : List Order) (advs : List Advertiser) (s : σ),
        ∀ sp ∈ (generate_spots orders advs g s).1,
          TODAY_CUTOFF < sp.air_date → sp.status = "scheduled") := by
  constructor
  · exact fun d dp st hp s h => determine_status_future g d dp st hp s h
  · intro orders advs s sp hsp hf
    exact spots_rec_status g advs orders 100000 s sp hsp hf

/-- Concrete instantiation of the future-scheduling rule: a spot airing
2025-03-01, after the 2025-02-15 cutoff. -/
theorem future_spots_scheduled_witness :
    TODAY_CUTOFF < daysFromCivil 2025 3 1 ∧
    determine_status trivial_rng (daysFromCivil 2025 3 1) Daypart.PR Station.KHQ
      Station.KHQ () = ("scheduled", ()) := by
  refine ⟨by decide, ?_⟩
  exact (future_spots_scheduled trivial_rng).1 (daysFromCivil 2025 3 1) Daypart.PR
    Station.KHQ Station.KHQ () (by decide)

-- ── C10: unique primary keys ───────────────────────────────────────────────

/-- C10: the order identifiers of a `generate_orders` run and the spot
identifiers of a `generate_spots` run are pairwise distinct — each counter
is bumped before every emitted row and the identifier is its (injectively
formatted) decimal rendering, so both tables have unique primary keys. -/
theorem ids_unique {σ : Type} (g : RNG σ) :
    (∀ (advs : List Advertiser) (ags : List String) (s : σ),
      ((generate_orders advs ags g s).1.map Order.order_id).Nodup) ∧
    (∀ (orders : List Order) (advs : List Advertiser) (s : σ),
      ((generate_spots orders advs g s).1.map Spot.spot_id).Nodup) :=
  ⟨fun advs ags s => generate_orders_ids_nodup g advs ags s,
   fun orders advs s =>
     (spots_rec_pairwise g advs orders 100000 s).imp (fun hlt => Nat.ne_of_lt hlt)⟩

-- ── C6: order totals ───────────────────────────────────────────────────────

/-- C6: after `update_order_totals` every order's total is the sum of the
rates of the spots referencing it, rounded to cents, and 0 for orders no
spot references. -/
theorem order_totals_match_spots (orders_df : List Order) (spots_df : List Spot) :
    ∀ o ∈ update_order_totals orders_df spots_df,
      o.order_total =
        round2 (((spots_df.filter (fun sp => sp.order_id == o.order_id)).map
          Spot.rate).sum) ∧
      (spots_df.filter (fun sp => sp.order_id == o.order_id) = [] →
        o.order_total = 0) := by
  intro o ho
  rcases List.mem_map.mp ho with ⟨o0, _, rfl⟩
  refine ⟨rfl, ?_⟩
  intro hnil
  dsimp only at hnil ⊢
  rw [hnil]
  simp [round2]

/-- Concrete instantiation of the order-total backfill. -/
theorem order_totals_match_spots_witness :
    (⟨7, "A", none, 0, 0, 0,
       round2 (((([] : List Spot).filter (fun sp => sp.order_id == 7)).map
         Spot.rate).sum), Station.KHQ⟩ : Order) ∈
      update_order_totals [⟨7, "A", none, 0, 0, 0, 0, Station.KHQ⟩] [] ∧
    (⟨7, "A", none, 0, 0, 0,
       round2 (((([] : List Spot).filter (fun sp => sp.order_id == 7)).map
         Spot.rate).sum), Station.KHQ⟩ : Order).order_total = 0 := by
  refine ⟨by with_unfolding_all decide, ?_⟩
  exact (order_totals_match_spots [⟨7, "A", none, 0, 0, 0, 0, Station.KHQ⟩] []
    _ (by with_unfolding_all decide)).2 (by decide)

-- ── C1: determinism of the pipeline ────────────────────────────────────────

/-- C1: two runs of the complete pipeline (advertisers, orders, spots,
order totals, inventory), each started from a fresh generator state
initialised with the same seed, produce value-for-value identical order,
spot and inventory tables — the pipeline is a pure function of
(configuration, seed). -/
theorem pipeline_deterministic {σ : Type} (g : RNG σ) (init : ℤ → σ) (seed : ℤ)
    (run1 run2 : List Order × List Spot × List InvRow)
    (h1 : run1 = run_pipeline g init seed) (h2 : run2 = run_pipeline g init seed) :
    run1.1 = run2.1 ∧ run1.2.1 = run2.2.1 ∧ run1.2.2 = run2.2.2 := by
  subst h1; subst h2; exact ⟨rfl, rfl, rfl⟩

-- ── Inventory bookkeeping ──────────────────────────────────────────────────

theorem sum_map_add {α M : Type} [AddCommMonoid M] (l : List α) (f h : α → M) :
    (l.map (fun x => f x + h x)).sum = (l.map f).sum + (l.map h).sum := by
  induction l with
  | nil => simp
  | cons a t ih =>
    simp only [List.map_cons, List.sum_cons, ih]
    abel

theorem qsum_map_const {α : Type} (l : List α) (c : ℚ) :
    (l.map (fun _ => c)).sum = l.length * c := by
  induction l with
  | nil => simp
  | cons a t ih => simp [ih]; ring

theorem qsum_map_mulr {α : Type} (l : List α) (f : α → ℚ) (c : ℚ) :
    (l.map (fun x => f x * c)).sum = (l.map f).sum * c := by
  induction l with
  | nil => simp
  | cons a t ih => simp [ih]; ring

theorem qsum_map_sub_const {α : Type} (l : List α) (f : α → ℚ) (c : ℚ) :
    (l.map (fun x => f x - c)).sum = (l.map f).sum - l.length * c := by
  induction l with
  | nil => simp
  | cons a t ih => simp [ih]; ring

theorem all_dates_length : all_dates.length = n_days := by
  unfold all_dates
  rw [List.length_map, List.length_range]

theorem all_dates_nodup : all_dates.Nodup := by
  unfold all_dates
  refine List.Nodup.map ?_ (List.nodup_range n_days)
  intro a b hab
  have hab2 : DATE_START + (a : ℤ) = DATE_START + (b : ℤ) := hab
  omega

theorem mem_all_dates {d : ℤ} : d ∈ all_dates ↔ DATE_START ≤ d ∧ d ≤ DATE_END := by
  have hn : (n_days : ℤ) = DATE_END - DATE_START + 1 := by decide
  unfold all_dates
  constructor
  · intro hd
    rcases List.mem_map.mp hd with ⟨i, hi, rfl⟩
    have hi2 := List.mem_range.mp hi
    omega
  · intro hle
    exact List.mem_map.mpr
      ⟨(d - DATE_START).toNat, List.mem_range.mpr (by omega), by omega⟩

theorem bump_extra_length (idxs : List ℕ) :
    ∀ (xs : List ℤ) (k : ℕ), (bump_extra idxs xs k).length = xs.length := by
  intro xs
  induction xs with
  | nil => intro k; rfl
  | cons x t ih => intro k; simp [bump_extra, ih]

theorem sum_range_ite (n a : ℕ) (h : a < n) :
    ((List.range n).map (fun j => if a = j then (1 : ℤ) else 0)).sum = 1 := by
  induction n with
  | zero => omega
  | succ m ih =>
    rw [List.range_succ, List.map_append, List.sum_append]
    rcases Nat.lt_or_ge a m with h2 | h2
    · rw [ih h2]
      have hne : a ≠ m := by omega
      simp [hne]
    · have ha : a = m := by omega
      have hz : ((List.range m).map (fun j => if a = j then (1 : ℤ) else 0)).sum = 0 := by
        have hall : ∀ j ∈ List.range m, (if a = j then (1 : ℤ) else 0) = 0 := by
          intro j hj
          rw [if_neg]
          have := List.mem_range.mp hj
          omega
        rw [List.map_congr_left hall]
        simp
      rw [hz, ha]
      simp

theorem sum_range_count (l : List ℕ) (n : ℕ) (h : ∀ x ∈ l, x < n) :
    ((List.range n).map (fun j => (l.count j : ℤ))).sum = l.length := by
  induction l with
  | nil => simp
  | cons a t ih =>
    have ha : a < n := h a (List.mem_cons_self a t)
    have hcons : ∀ j ∈ List.range n, ((a :: t).count j : ℤ) =
        (t.count j : ℤ) + (if a = j then (1 : ℤ) else 0) := by
      intro j _
      by_cases hj : j = a
      · subst hj
        rw [List.count_cons_self, if_pos rfl]
        push_cast
        ring
      · rw [List.count_cons_of_ne hj, if_neg (fun hc => hj hc.symm)]
        simp
    rw [List.map_congr_left hcons, sum_map_add, ih (fun x hx => h x (List.mem_cons_of_mem a hx)),
      sum_range_ite n a ha]
    simp only [List.length_cons]
    push_cast
    ring

theorem bump_extra_sum (idxs : List ℕ) :
    ∀ (xs : List ℤ) (k : ℕ), (bump_extra idxs xs k).sum =
      xs.sum + ((List.range xs.length).map (fun j => (idxs.count (k + j) : ℤ))).sum := by
  intro xs
  induction xs with
  | nil => intro k; simp [bump_extra]
  | cons x t ih =>
    intro k
    have hmap : (List.range (x :: t).length).map (fun j => (idxs.count (k + j) : ℤ)) =
        ((idxs.count k : ℤ)) :: (List.range t.length).map
          (fun j => (idxs.count ((k + 1) + j) : ℤ)) := by
      rw [List.length_cons, List.range_succ_eq_map, List.map_cons, List.map_map]
      simp only [Nat.add_zero]
      congr 1
      refine List.map_congr_left ?_
      intro j _
      simp only [Function.comp_apply]
      congr 2
      omega
    rw [hmap]
    simp only [bump_extra, List.sum_cons, ih (k + 1)]
    ring

theorem bump_extra_mem_lb (idxs : List ℕ) :
    ∀ (xs : List ℤ) (k : ℕ), ∀ e ∈ bump_extra idxs xs k, ∃ x ∈ xs, x ≤ e := by
  intro xs
  induction xs with
  | nil => intro k e he; exact absurd he (List.not_mem_nil e)
  | cons x t ih =>
    intro k e he
    rcases List.mem_cons.mp he with h | h
    · exact ⟨x, List.mem_cons_self x t, by
        subst h
        have : (0 : ℤ) ≤ (idxs.count k : ℤ) := Int.ofNat_nonneg _
        omega⟩
    · rcases ih (k + 1) e h with ⟨y, hy, hle⟩
      exact ⟨y, List.mem_cons_of_mem x hy, hle⟩

theorem qsum_map_id_mul (l : List ℚ) (c : ℚ) :
    (l.map (fun x => x * c)).sum = l.sum * c := by
  induction l with
  | nil => simp
  | cons a t ih => simp [ih]; ring

theorem floor_terms_sum_bounds (ws : List ℚ) (r : ℤ) (hw : ∀ w ∈ ws, 0 ≤ w)
    (hsum : ws.sum = 1) (hr : 0 ≤ r) :
    r - ws.length ≤ (ws.map (fun w => ⌊w * (r : ℚ)⌋)).sum ∧
    (ws.map (fun w => ⌊w * (r : ℚ)⌋)).sum ≤ r ∧
    ∀ x ∈ ws.map (fun w => ⌊w * (r : ℚ)⌋), 0 ≤ x := by
  have hcast : (((ws.map (fun w => ⌊w * (r : ℚ)⌋)).sum : ℤ) : ℚ) =
      (ws.map (fun w => ((⌊w * (r : ℚ)⌋ : ℤ) : ℚ))).sum := by
    rw [Int.cast_list_sum, List.map_map]
    rfl
  have hfl_le : ∀ w ∈ ws, ((⌊w * (r : ℚ)⌋ : ℤ) : ℚ) ≤ w * (r : ℚ) :=
    fun w _ => Int.floor_le _
  have hfl_ge : ∀ w ∈ ws, w * (r : ℚ) - 1 ≤ ((⌊w * (r : ℚ)⌋ : ℤ) : ℚ) :=
    fun w _ => le_of_lt (Int.sub_one_lt_floor _)
  have hmul : (ws.map (fun w => w * (r : ℚ))).sum = (r : ℚ) := by
    rw [qsum_map_id_mul, hsum, one_mul]
  refine ⟨?_, ?_, ?_⟩
  · have h2 := qsum_map_le ws (fun w => w * (r : ℚ) - 1)
      (fun w => ((⌊w * (r : ℚ)⌋ : ℤ) : ℚ)) hfl_ge
    rw [qsum_map_sub_const ws (fun w => w * (r : ℚ)) 1, hmul, mul_one] at h2
    rw [← hcast] at h2
    exact_mod_cast h2
  · have h2 := qsum_map_le ws (fun w => ((⌊w * (r : ℚ)⌋ : ℤ) : ℚ))
      (fun w => w * (r : ℚ)) hfl_le
    rw [hmul, ← hcast] at h2
    exact_mod_cast h2
  · intro x hx
    rcases List.mem_map.mp hx with ⟨w, hwmem, rfl⟩
    have h0 : (0 : ℚ) ≤ w * (r : ℚ) :=
      mul_nonneg (hw w hwmem) (by exact_mod_cast hr)
    exact Int.le_floor.mpr (by exact_mod_cast h0)

theorem n_days_pos : 0 < n_days := by decide

theorem raw_weights_facts {σ : Type} (g : RNG σ) (hg : RNGSpec g) (s : σ) :
    (∀ w ∈ (g.randomVec n_days s).1.map (fun x => x + 0.1), (0.1 : ℚ) ≤ w) ∧
    (0 : ℚ) < ((g.randomVec n_days s).1.map (fun x => x + 0.1)).sum := by
  have hmem : ∀ w ∈ (g.randomVec n_days s).1.map (fun x => x + 0.1), (0.1 : ℚ) ≤ w := by
    intro w hw
    rcases List.mem_map.mp hw with ⟨q, hq, rfl⟩
    have := hg.randomVec_lb n_days s q hq
    linarith
  refine ⟨hmem, ?_⟩
  have hconst := qsum_map_le (g.randomVec n_days s).1 (fun _ => (0.1 : ℚ))
    (fun x => x + 0.1) (fun q hq => by have := hg.randomVec_lb n_days s q hq; linarith)
  rw [qsum_map_const] at hconst
  have hlen := hg.randomVec_len n_days s
  have hnpos : (0 : ℚ) < ((g.randomVec n_days s).1.length : ℚ) * 0.1 := by
    rw [hlen]
    have : (0 : ℚ) < (n_days : ℚ) := by exact_mod_cast n_days_pos
    linarith
  linarith

theorem norm_weights_facts {σ : Type} (g : RNG σ) (hg : RNGSpec g) (s : σ) :
    (∀ w ∈ ((g.randomVec n_days s).1.map (fun x => x + 0.1)).map
        (fun w => w / ((g.randomVec n_days s).1.map (fun x => x + 0.1)).sum), 0 ≤ w) ∧
    (((g.randomVec n_days s).1.map (fun x => x + 0.1)).map
        (fun w => w / ((g.randomVec n_days s).1.map (fun x => x + 0.1)).sum)).sum = 1 ∧
    (((g.randomVec n_days s).1.map (fun x => x + 0.1)).map
        (fun w => w / ((g.randomVec n_days s).1.map (fun x => x + 0.1)).sum)).length = n_days := by
  rcases raw_weights_facts g hg s with ⟨hmem, hpos⟩
  refine ⟨?_, ?_, ?_⟩
  · intro w hw
    rcases List.mem_map.mp hw with ⟨q, hq, rfl⟩
    exact div_nonneg (le_trans (by norm_num) (hmem q hq)) (le_of_lt hpos)
  · rw [qsum_map_div, List.map_id']
    exact div_self (ne_of_gt hpos)
  · rw [List.length_map, List.length_map]
    exact hg.randomVec_len n_days s

theorem distribute_extra_length {σ : Type} (g : RNG σ) (hg : RNGSpec g) (r : ℤ) (s : σ) :
    (distribute_extra g r s).1.length = n_days := by
  simp only [distribute_extra]
  split
  · split
    · rw [bump_extra_length]
      simp [hg.randomVec_len n_days s]
    · simp [hg.randomVec_len n_days s]
  · exact List.length_replicate n_days 0

theorem distribute_extra_nonneg {σ : Type} (g : RNG σ) (hg : RNGSpec g) (r : ℤ) (s : σ)
    (hr : 0 ≤ r) : ∀ e ∈ (distribute_extra g r s).1, 0 ≤ e := by
  intro e he
  simp only [distribute_extra] at he
  rcases norm_weights_facts g hg s with ⟨hnn, hsum, hlen⟩
  by_cases h1 : 0 < r
  · rw [if_pos h1] at he
    have hext := (floor_terms_sum_bounds _ r hnn hsum hr).2.2
    split at he
    · rcases bump_extra_mem_lb _ _ _ e he with ⟨x, hx, hle⟩
      exact le_trans (hext x hx) hle
    · exact hext e he
  · rw [if_neg h1] at he
    rw [List.eq_of_mem_replicate he]

theorem distribute_extra_sum {σ : Type} (g : RNG σ) (hg : RNGSpec g) (r : ℤ) (s : σ)
    (hr : 0 ≤ r) : (distribute_extra g r s).1.sum = r := by
  rcases norm_weights_facts g hg s with ⟨hnn, hsum, hlen⟩
  rcases floor_terms_sum_bounds _ r hnn hsum hr with ⟨hlb, hub, _⟩
  rw [hlen] at hlb
  simp only [distribute_extra]
  set v := g.randomVec n_days s with hv
  set raw := v.1.map (fun x => x + 0.1) with hraw
  set ws := raw.map (fun w => w / raw.sum) with hws
  set ex := ws.map (fun w => ⌊w * (r : ℚ)⌋) with hex
  have hexlen : ex.length = n_days := by
    rw [hex, List.length_map]
    exact hlen
  by_cases h1 : 0 < r
  · rw [if_pos h1]
    split
    · rename_i hsf
      dsimp only
      have hk : (r - ex.sum).toNat ≤ n_days := by omega
      have hblen := hg.choiceNR_len n_days none (r - ex.sum).toNat v.2 hk
      have hbmem := hg.choiceNR_lt n_days none (r - ex.sum).toNat v.2 hk
      rw [bump_extra_sum, hexlen]
      have hz : ∀ j ∈ List.range n_days,
          (((g.choiceNR n_days none (r - ex.sum).toNat v.2).1.count (0 + j) : ℤ)) =
          (((g.choiceNR n_days none (r - ex.sum).toNat v.2).1.count j : ℤ)) := by
        intro j _
        rw [Nat.zero_add]
      rw [List.map_congr_left hz, sum_range_count _ n_days hbmem, hblen]
      omega
    · rename_i hsf
      dsimp only
      omega
  · rw [if_neg h1]
    have hr0 : r = 0 := by omega
    rw [hr0]
    simp

theorem sum_ite_not_mem (a : ℤ) :
    ∀ (l : List ℤ), a ∉ l → (l.map (fun d => if a = d then (1 : ℕ) else 0)).sum = 0 := by
  intro l
  induction l with
  | nil => intro _; rfl
  | cons d t ih =>
    intro ha
    have h1 : a ≠ d := fun hc => ha (hc ▸ List.mem_cons_self d t)
    have h2 : a ∉ t := fun hc => ha (List.mem_cons_of_mem d hc)
    simp only [List.map_cons, List.sum_cons, if_neg h1, ih h2]

theorem sum_ite_mem (a : ℤ) :
    ∀ (l : List ℤ), l.Nodup → a ∈ l →
      (l.map (fun d => if a = d then (1 : ℕ) else 0)).sum = 1 := by
  intro l
  induction l with
  | nil => intro _ ha; exact absurd ha (List.not_mem_nil a)
  | cons d t ih =>
    intro hnd ha
    rcases List.nodup_cons.mp hnd with ⟨hd, hndt⟩
    simp only [List.map_cons, List.sum_cons]
    by_cases had : a = d
    · rw [if_pos had]
      have hnott : a ∉ t := had ▸ hd
      rw [sum_ite_not_mem a t hnott]
    · rw [if_neg had]
      have hat : a ∈ t := by
        rcases List.mem_cons.mp ha with h | h
        · exact absurd h had
        · exact h
      rw [ih hndt hat]

theorem booked_sum (st : Station) (dp : Daypart) :
    ∀ (spots : List Spot), (∀ sp ∈ spots, sp.air_date ∈ all_dates) →
      (all_dates.map (fun d => booked_on spots st dp d)).sum =
        total_booked_of spots st dp := by
  intro spots
  induction spots with
  | nil =>
    intro _
    simp [booked_on, total_booked_of]
  | cons sp t ih =>
    intro h
    have ht := ih (fun x hx => h x (List.mem_cons_of_mem sp hx))
    have hcons : ∀ d ∈ all_dates, booked_on (sp :: t) st dp d =
        booked_on t st dp d +
          (if sp.station = st ∧ sp.daypart = dp ∧ sp.air_date = d then 1 else 0) := by
      intro d _
      unfold booked_on
      rw [List.countP_cons]
      by_cases hc : sp.station = st ∧ sp.daypart = dp ∧ sp.air_date = d
      · simp [hc]
      · simp [hc]
    rw [List.map_congr_left hcons, sum_map_add, ht]
    unfold total_booked_of
    rw [List.countP_cons]
    by_cases hm : sp.station = st ∧ sp.daypart = dp
    · have hmem := h sp (List.mem_cons_self sp t)
      have hsimp : ∀ d ∈ all_dates,
          (if sp.station = st ∧ sp.daypart = dp ∧ sp.air_date = d then (1 : ℕ) else 0) =
            (if sp.air_date = d then 1 else 0) := by
        intro d _
        by_cases hd : sp.air_date = d
        · simp [hd, hm.1, hm.2]
        · simp [hd]
      rw [List.map_congr_left hsimp, sum_ite_mem sp.air_date all_dates all_dates_nodup hmem]
      simp [hm.1, hm.2]
    · have hsimp : ∀ d ∈ all_dates,
          (if sp.station = st ∧ sp.daypart = dp ∧ sp.air_date = d then (1 : ℕ) else 0) = 0 := by
        intro d _
        rw [if_neg]
        intro hc
        exact hm ⟨hc.1, hc.2.1⟩
      rw [List.map_congr_left hsimp]
      have hz : ∀ d ∈ all_dates, (0 : ℕ) = (fun _ => (0 : ℕ)) d := fun d _ => rfl
      simp [hm]

theorem zipWith_add_sum :
    ∀ (bs : List ℕ) (es : List ℤ), bs.length = es.length →
      (List.zipWith (fun (b : ℕ) (e : ℤ) => (b : ℤ) + e) bs es).sum =
        (bs.sum : ℤ) + es.sum := by
  intro bs
  induction bs with
  | nil =>
    intro es h
    cases es with
    | nil => simp
    | cons e es => simp at h
  | cons b bs ih =>
    intro es h
    cases es with
    | nil => simp at h
    | cons e es =>
      simp only [List.zipWith_cons_cons, List.sum_cons]
      rw [ih es (by simpa using h)]
      push_cast
      ring

theorem filter_nil_of_none {α : Type} (p : α → Bool) :
    ∀ l : List α, (∀ x ∈ l, p x = false) → l.filter p = [] := by
  intro l
  induction l with
  | nil => intro _; rfl
  | cons a t ih =>
    intro h
    rw [List.filter_cons, if_neg (by simp [h a (List.mem_cons_self a t)])]
    exact ih (fun x hx => h x (List.mem_cons_of_mem a hx))

theorem filter_self_of_all {α : Type} (p : α → Bool) :
    ∀ l : List α, (∀ x ∈ l, p x = true) → l.filter p = l := by
  intro l
  induction l with
  | nil => intro _; rfl
  | cons a t ih =>
    intro h
    rw [List.filter_cons, if_pos (by simp [h a (List.mem_cons_self a t)])]
    rw [ih (fun x hx => h x (List.mem_cons_of_mem a hx))]

theorem filter_length_eq_one (d : ℤ) :
    ∀ l : List ℤ, l.Nodup → d ∈ l →
      (l.filter (fun x => decide (x = d))).length = 1 := by
  intro l
  induction l with
  | nil => intro _ hd; exact absurd hd (List.not_mem_nil d)
  | cons a t ih =>
    intro hnd hd
    rcases List.nodup_cons.mp hnd with ⟨hat, hndt⟩
    rw [List.filter_cons]
    by_cases had : a = d
    · rw [if_pos (by simp [had])]
      have hdt : d ∉ t := had ▸ hat
      rw [filter_nil_of_none _ t (fun x hx => by
        simp only [decide_eq_false_iff_not]
        intro hc
        exact hdt (hc ▸ hx))]
      rfl
    · rw [if_neg (by simp [had])]
      refine ih hndt ?_
      rcases List.mem_cons.mp hd with h | h
      · exact absurd h.symm had
      · exact h

theorem mkInvRows_fields (st : Station) (dp : Daypart) :
    ∀ (ds : List ℤ) (bs : List ℕ) (as_ : List ℤ),
      ∀ row ∈ mkInvRows st dp ds bs as_,
        row.station = st ∧ row.daypart = dp ∧
        row.remaining = row.total_avails - (row.booked : ℤ) ∧ row.date ∈ ds := by
  intro ds
  induction ds with
  | nil =>
    intro bs as_ row hrow
    cases bs <;> cases as_ <;> simp [mkInvRows] at hrow
  | cons d ds ih =>
    intro bs as_ row hrow
    cases bs with
    | nil => cases as_ <;> simp [mkInvRows] at hrow
    | cons b bs =>
      cases as_ with
      | nil => simp [mkInvRows] at hrow
      | cons a as_ =>
        simp only [mkInvRows] at hrow
        rcases List.mem_cons.mp hrow with h | h
        · subst h
          exact ⟨rfl, rfl, rfl, List.mem_cons_self d ds⟩
        · have h2 := ih bs as_ row h
          exact ⟨h2.1, h2.2.1, h2.2.2.1, List.mem_cons_of_mem d h2.2.2.2⟩

theorem mkInvRows_remaining_nonneg (st : Station) (dp : Daypart) :
    ∀ (ds : List ℤ) (bs : List ℕ) (es : List ℤ), (∀ e ∈ es, 0 ≤ e) →
      ∀ row ∈ mkInvRows st dp ds bs
          (List.zipWith (fun (b : ℕ) (e : ℤ) => (b : ℤ) + e) bs es),
        0 ≤ row.remaining := by
  intro ds
  induction ds with
  | nil =>
    intro bs es _ row hrow
    cases bs <;> cases es <;> simp [mkInvRows] at hrow
  | cons d ds ih =>
    intro bs es hnn row hrow
    cases bs with
    | nil => cases es <;> simp [mkInvRows] at hrow
    | cons b bs =>
      cases es with
      | nil => simp [mkInvRows] at hrow
      | cons e es =>
        simp only [List.zipWith_cons_cons, mkInvRows] at hrow
        rcases List.mem_cons.mp hrow with h | h
        · subst h
          have he := hnn e (List.mem_cons_self e es)
          show (0 : ℤ) ≤ (b : ℤ) + e - (b : ℤ)
          omega
        · exact ih bs es (fun x hx => hnn x (List.mem_cons_of_mem e hx)) row h

theorem mkInvRows_avails_sum (st : Station) (dp : Daypart) :
    ∀ (ds : List ℤ) (bs : List ℕ) (as_ : List ℤ),
      ds.length = bs.length → bs.length = as_.length →
      ((mkInvRows st dp ds bs as_).map InvRow.total_avails).sum = as_.sum := by
  intro ds
  induction ds with
  | nil =>
    intro bs as_ h1 h2
    cases bs with
    | nil =>
      cases as_ with
      | nil => rfl
      | cons a as_ => simp at h2
    | cons b bs => simp at h1
  | cons d ds ih =>
    intro bs as_ h1 h2
    cases bs with
    | nil => simp at h1
    | cons b bs =>
      cases as_ with
      | nil => simp at h2
      | cons a as_ =>
        simp only [mkInvRows, List.map_cons, List.sum_cons]
        rw [ih bs as_ (by simpa using h1) (by simpa using h2)]

theorem mkInvRows_count_date (st : Station) (dp : Daypart) (d : ℤ) :
    ∀ (ds : List ℤ) (bs : List ℕ) (as_ : List ℤ),
      ds.length = bs.length → bs.length = as_.length →
      ((mkInvRows st dp ds bs as_).filter
        (fun r => decide (r.station = st ∧ r.daypart = dp ∧ r.date = d))).length =
      (ds.filter (fun x => decide (x = d))).length := by
  intro ds
  induction ds with
  | nil =>
    intro bs as_ h1 h2
    cases bs with
    | nil =>
      cases as_ with
      | nil => rfl
      | cons a as_ => simp at h2
    | cons b bs => simp at h1
  | cons d0 ds ih =>
    intro bs as_ h1 h2
    cases bs with
    | nil => simp at h1
    | cons b bs =>
      cases as_ with
      | nil => simp at h2
      | cons a as_ =>
        simp only [mkInvRows, List.filter_cons]
        by_cases hd : d0 = d
        · rw [if_pos (by simp [hd]), if_pos (by simp [hd])]
          simp only [List.length_cons]
          rw [ih bs as_ (by simpa using h1) (by simpa using h2)]
        · rw [if_neg (by simp [hd]), if_neg (by simp [hd])]
          exact ih bs as_ (by simpa using h1) (by simpa using h2)

theorem sellout_facts (dp : Daypart) :
    0 < SELLOUT_TARGETS dp ∧ SELLOUT_TARGETS dp ≤ 1 := by
  cases dp <;> constructor <;> norm_num [SELLOUT_TARGETS]

theorem inventory_pair_rows_fields {σ : Type} (g : RNG σ) (hg : RNGSpec g)
    (spots : List Spot) (st : Station) (dp : Daypart) (s : σ) :
    ∀ row ∈ (inventory_pair g spots st dp s).1,
      row.station = st ∧ row.daypart = dp ∧
      row.remaining = row.total_avails - (row.booked : ℤ) ∧
      0 ≤ row.remaining ∧ row.date ∈ all_dates := by
  intro row hrow
  simp only [inventory_pair] at hrow
  have h1 := mkInvRows_fields st dp all_dates _ _ row hrow
  have h2 := mkInvRows_remaining_nonneg st dp all_dates _ _
    (distribute_extra_nonneg g hg _ s (le_max_left 0 _)) row hrow
  exact ⟨h1.1, h1.2.1, h1.2.2.1, h2, h1.2.2.2⟩

theorem inventory_pair_target (spots : List Spot) (st : Station) (dp : Daypart) :
    (total_booked_of spots st dp : ℤ) ≤
      (if 0 < total_booked_of spots st dp
       then round ((total_booked_of spots st dp : ℚ) / SELLOUT_TARGETS dp)
       else (n_days : ℤ)) := by
  rcases sellout_facts dp with ⟨htpos, htle⟩
  by_cases hb : 0 < total_booked_of spots st dp
  · rw [if_pos hb]
    have h1 : (total_booked_of spots st dp : ℚ) ≤
        (total_booked_of spots st dp : ℚ) / SELLOUT_TARGETS dp := by
      rw [le_div_iff₀ htpos]
      exact mul_le_of_le_one_right (by positivity) htle
    have h2 : (total_booked_of spots st dp : ℤ) ≤
        ⌊(total_booked_of spots st dp : ℚ) / SELLOUT_TARGETS dp⌋ :=
      Int.le_floor.mpr (by exact_mod_cast h1)
    have h3 : ⌊(total_booked_of spots st dp : ℚ) / SELLOUT_TARGETS dp⌋ ≤
        round ((total_booked_of spots st dp : ℚ) / SELLOUT_TARGETS dp) := by
      rw [round_eq]
      exact Int.floor_le_floor (by linarith)
    omega
  · rw [if_neg hb]
    have : total_booked_of spots st dp = 0 := by omega
    rw [this]
    have := n_days_pos
    omega

theorem inventory_pair_avails_sum {σ : Type} (g : RNG σ) (hg : RNGSpec g)
    (spots : List Spot) (st : Station) (dp : Daypart) (s : σ)
    (hdates : ∀ sp ∈ spots, sp.air_date ∈ all_dates) :
    (((inventory_pair g spots st dp s).1).map InvRow.total_avails).sum =
      (if 0 < total_booked_of spots st dp
       then round ((total_booked_of spots st dp : ℚ) / SELLOUT_TARGETS dp)
       else (n_days : ℤ)) := by
  have hbsum : ((all_dates.map (booked_on spots st dp)).sum : ℕ) =
      total_booked_of spots st dp := booked_sum st dp spots hdates
  have hdblen : (all_dates.map (booked_on spots st dp)).length = n_days := by
    rw [List.length_map, all_dates_length]
  have hRnn : (0 : ℤ) ≤ max 0 ((if 0 < total_booked_of spots st dp
      then round ((total_booked_of spots st dp : ℚ) / SELLOUT_TARGETS dp)
      else (n_days : ℤ)) - ((all_dates.map (booked_on spots st dp)).sum : ℤ)) :=
    le_max_left 0 _
  have hext_len := distribute_extra_length g hg
    (max 0 ((if 0 < total_booked_of spots st dp
      then round ((total_booked_of spots st dp : ℚ) / SELLOUT_TARGETS dp)
      else (n_days : ℤ)) - ((all_dates.map (booked_on spots st dp)).sum : ℤ))) s
  have hext_sum := distribute_extra_sum g hg
    (max 0 ((if 0 < total_booked_of spots st dp
      then round ((total_booked_of spots st dp : ℚ) / SELLOUT_TARGETS dp)
      else (n_days : ℤ)) - ((all_dates.map (booked_on spots st dp)).sum : ℤ))) s hRnn
  have htarget := inventory_pair_target spots st dp
  simp only [inventory_pair]
  rw [mkInvRows_avails_sum st dp all_dates _ _
    (by rw [all_dates_length, hdblen])
    (by rw [List.length_zipWith, hdblen, hext_len, Nat.min_self])]
  rw [zipWith_add_sum _ _ (by rw [hdblen, hext_len]), hext_sum]
  rw [hbsum]
  omega

theorem inventory_pair_count_date {σ : Type} (g : RNG σ) (hg : RNGSpec g)
    (spots : List Spot) (st : Station) (dp : Daypart) (s : σ) (d : ℤ)
    (hd : d ∈ all_dates) :
    ((inventory_pair g spots st dp s).1.filter
      (fun r => decide (r.station = st ∧ r.daypart = dp ∧ r.date = d))).length = 1 := by
  have hdblen : (all_dates.map (booked_on spots st dp)).length = n_days := by
    rw [List.length_map, all_dates_length]
  have hext_len := distribute_extra_length g hg
    (max 0 ((if 0 < total_booked_of spots st dp
      then round ((total_booked_of spots st dp : ℚ) / SELLOUT_TARGETS dp)
      else (n_days : ℤ)) - ((all_dates.map (booked_on spots st dp)).sum : ℤ))) s
  simp only [inventory_pair]
  rw [mkInvRows_count_date st dp d all_dates _ _
    (by rw [all_dates_length, hdblen])
    (by rw [List.length_zipWith, hdblen, hext_len, Nat.min_self])]
  exact filter_length_eq_one d all_dates all_dates_nodup hd

theorem inventory_pair_filter_other {σ : Type} (g : RNG σ) (spots : List Spot)
    (st : Station) (dp : Daypart) (pred : InvRow → Bool)
    (hpred : ∀ r, pred r = true → r.station = st ∧ r.daypart = dp)
    (p' : Station × Daypart) (hne : p' ≠ (st, dp)) (s : σ) :
    (inventory_pair g spots p'.1 p'.2 s).1.filter pred = [] := by
  refine filter_nil_of_none pred _ ?_
  intro x hx
  have hf := mkInvRows_fields p'.1 p'.2 all_dates _ _ x (by
    simpa only [inventory_pair] using hx)
  rcases Bool.eq_false_or_eq_true (pred x) with h | h
  · exfalso
    rcases hpred x h with ⟨h1, h2⟩
    exact hne (Prod.ext (by rw [← hf.1, h1]) (by rw [← hf.2.1, h2]))
  · exact h

theorem inv_foldl_forall {σ : Type} (g : RNG σ) (spots : List Spot)
    (P : InvRow → Prop)
    (hpair : ∀ (st : Station) (dp : Daypart) (s : σ),
      ∀ r ∈ (inventory_pair g spots st dp s).1, P r) :
    ∀ (ps : List (Station × Daypart)) (acc : List InvRow × σ),
      (∀ r ∈ acc.1, P r) →
      ∀ r ∈ (ps.foldl (inv_step g spots) acc).1, P r := by
  intro ps
  induction ps with
  | nil => intro acc hacc r hr; exact hacc r hr
  | cons p rest ih =>
    intro acc hacc r hr
    rw [List.foldl_cons] at hr
    refine ih _ ?_ r hr
    intro x hx
    simp only [inv_step] at hx
    rcases List.mem_append.mp hx with h | h
    · exact hacc x h
    · exact hpair p.1 p.2 acc.2 x h

theorem inv_foldl_filter_nomem {σ : Type} (g : RNG σ) (spots : List Spot)
    (st : Station) (dp : Daypart) (pred : InvRow → Bool)
    (hpred : ∀ r, pred r = true → r.station = st ∧ r.daypart = dp) :
    ∀ (ps : List (Station × Daypart)) (acc : List InvRow × σ),
      (st, dp) ∉ ps →
      ((ps.foldl (inv_step g spots) acc).1.filter pred) = acc.1.filter pred := by
  intro ps
  induction ps with
  | nil => intro acc _; rfl
  | cons p rest ih =>
    intro acc hmem
    rw [List.foldl_cons]
    rw [ih _ (fun hc => hmem (List.mem_cons_of_mem p hc))]
    simp only [inv_step, List.filter_append]
    rw [inventory_pair_filter_other g spots st dp pred hpred p
      (fun hc => hmem (hc ▸ List.mem_cons_self p rest)) acc.2]
    rw [List.append_nil]

theorem inv_foldl_filter_split {σ : Type} (g : RNG σ) (spots : List Spot)
    (st : Station) (dp : Daypart) (pred : InvRow → Bool)
    (hpred : ∀ r, pred r = true → r.station = st ∧ r.daypart = dp) :
    ∀ (ps : List (Station × Daypart)) (acc : List InvRow × σ),
      (st, dp) ∈ ps → ps.count (st, dp) = 1 →
      ∃ s' : σ, ((ps.foldl (inv_step g spots) acc).1.filter pred) =
        acc.1.filter pred ++ ((inventory_pair g spots st dp s').1.filter pred) := by
  intro ps
  induction ps with
  | nil => intro acc hmem _; exact absurd hmem (List.not_mem_nil _)
  | cons p rest ih =>
    intro acc hmem hcount
    by_cases hp : p = (st, dp)
    · subst hp
      have hrest : (st, dp) ∉ rest := by
        rw [List.count_cons_self] at hcount
        exact List.count_eq_zero.mp (by omega)
      refine ⟨acc.2, ?_⟩
      rw [List.foldl_cons,
        inv_foldl_filter_nomem g spots st dp pred hpred rest _ hrest]
      simp only [inv_step, List.filter_append]
    · have hmem2 : (st, dp) ∈ rest := by
        rcases List.mem_cons.mp hmem with h | h
        · exact absurd h.symm hp
        · exact h
      have hcount2 : rest.count (st, dp) = 1 := by
        rw [List.count_cons_of_ne (fun hc => hp hc.symm)] at hcount
        exact hcount
      rcases ih (inv_step g spots acc p) hmem2 hcount2 with ⟨s', hs'⟩
      refine ⟨s', ?_⟩
      rw [List.foldl_cons, hs']
      simp only [inv_step, List.filter_append]
      rw [inventory_pair_filter_other g spots st dp pred hpred p hp acc.2]
      rw [List.append_nil]

theorem pairs_mem (st : Station) (dp : Daypart) : (st, dp) ∈ station_daypart_pairs := by
  cases st <;> cases dp <;> decide

theorem pairs_count_one (st : Station) (dp : Daypart) :
    station_daypart_pairs.count (st, dp) = 1 := by
  cases st <;> cases dp <;> decide

-- ── C3: inventory row coverage and aggregate sell-out targets ─────────────

/-- C3: `generate_inventory` emits exactly one row per (station, daypart,
date) of the primary range, and for every (station, daypart) pair the
pair's total avails equal `round(booked / target_sellout)` when the pair
has booked volume, and the number of days in range when it has none. -/
theorem inventory_rows_and_totals {σ : Type} (g : RNG σ) (hg : RNGSpec g)
    (spots : List Spot) (s : σ)
    (hdates : ∀ sp ∈ spots, DATE_START ≤ sp.air_date ∧ sp.air_date ≤ DATE_END) :
    (∀ (st : Station) (dp : Daypart) (d : ℤ), d ∈ all_dates →
      ((generate_inventory spots g s).1.filter
        (fun r => decide (r.station = st ∧ r.daypart = dp ∧ r.date = d))).length = 1) ∧
    (∀ (st : Station) (dp : Daypart), 0 < total_booked_of spots st dp →
      (((generate_inventory spots g s).1.filter
        (fun r => decide (r.station = st ∧ r.daypart = dp))).map InvRow.total_avails).sum =
        round ((total_booked_of spots st dp : ℚ) / SELLOUT_TARGETS dp)) ∧
    (∀ (st : Station) (dp : Daypart), total_booked_of spots st dp = 0 →
      (((generate_inventory spots g s).1.filter
        (fun r => decide (r.station = st ∧ r.daypart = dp))).map InvRow.total_avails).sum =
        (n_days : ℤ)) ∧
    (∀ row ∈ (generate_inventory spots g s).1, row.date ∈ all_dates) := by
  have hdates2 : ∀ sp ∈ spots, sp.air_date ∈ all_dates := by
    intro sp hsp
    exact mem_all_dates.mpr (hdates sp hsp)
  refine ⟨?_, ?_, ?_, ?_⟩
  · intro st dp d hd
    have hpred : ∀ r : InvRow,
        (fun r => decide (r.station = st ∧ r.daypart = dp ∧ r.date = d)) r = true →
        r.station = st ∧ r.daypart = dp := by
      intro r hr
      simp only [decide_eq_true_eq] at hr
      exact ⟨hr.1, hr.2.1⟩
    rcases inv_foldl_filter_split g spots st dp _ hpred station_daypart_pairs ([], s)
      (pairs_mem st dp) (pairs_count_one st dp) with ⟨s', hs'⟩
    unfold generate_inventory
    rw [hs']
    simp only [List.filter_nil, List.nil_append]
    exact inventory_pair_count_date g hg spots st dp s' d hd
  · intro st dp hB
    have hpred : ∀ r : InvRow,
        (fun r => decide (r.station = st ∧ r.daypart = dp)) r = true →
        r.station = st ∧ r.daypart = dp := by
      intro r hr
      simpa only [decide_eq_true_eq] using hr
    rcases inv_foldl_filter_split g spots st dp _ hpred station_daypart_pairs ([], s)
      (pairs_mem st dp) (pairs_count_one st dp) with ⟨s', hs'⟩
    unfold generate_inventory
    rw [hs']
    simp only [List.filter_nil, List.nil_append]
    have hself : (inventory_pair g spots st dp s').1.filter
        (fun r => decide (r.station = st ∧ r.daypart = dp)) =
        (inventory_pair g spots st dp s').1 := by
      refine filter_self_of_all _ _ ?_
      intro x hx
      have hf := inventory_pair_rows_fields g hg spots st dp s' x hx
      simp only [decide_eq_true_eq]
      exact ⟨hf.1, hf.2.1⟩
    rw [hself, inventory_pair_avails_sum g hg spots st dp s' hdates2, if_pos hB]
  · intro st dp hB
    have hpred : ∀ r : InvRow,
        (fun r => decide (r.station = st ∧ r.daypart = dp)) r = true →
        r.station = st ∧ r.daypart = dp := by
      intro r hr
      simpa only [decide_eq_true_eq] using hr
    rcases inv_foldl_filter_split g spots st dp _ hpred station_daypart_pairs ([], s)
      (pairs_mem st dp) (pairs_count_one st dp) with ⟨s', hs'⟩
    unfold generate_inventory
    rw [hs']
    simp only [List.filter_nil, List.nil_append]
    have hself : (inventory_pair g spots st dp s').1.filter
        (fun r => decide (r.station = st ∧ r.daypart = dp)) =
        (inventory_pair g spots st dp s').1 := by
      refine filter_self_of_all _ _ ?_
      intro x hx
      have hf := inventory_pair_rows_fields g hg spots st dp s' x hx
      simp only [decide_eq_true_eq]
      exact ⟨hf.1, hf.2.1⟩
    rw [hself, inventory_pair_avails_sum g hg spots st dp s' hdates2,
      if_neg (by omega)]
  · unfold generate_inventory
    refine inv_foldl_forall g spots _ ?_ station_daypart_pairs ([], s) ?_
    · intro st dp s' r hr
      exact (inventory_pair_rows_fields g hg spots st dp s' r hr).2.2.2.2
    · intro r hr
      exact absurd hr (List.not_mem_nil r)

/-- Concrete instantiation of the inventory contract for a one-spot table:
the generator specification holds for the degenerate generator, the spot's
date is in range, and the contract follows for that concrete run. -/
theorem inventory_rows_and_totals_witness :
    RNGSpec trivial_rng ∧
    (∀ sp ∈ [(⟨100001, 1002, DATE_START, 360, Daypart.EM, "Morning Report", 30, 216,
        "aired", Station.KHQ⟩ : Spot)],
      DATE_START ≤ sp.air_date ∧ sp.air_date ≤ DATE_END) ∧
    (∀ (st : Station) (dp : Daypart) (d : ℤ), d ∈ all_dates →
      ((generate_inventory [(⟨100001, 1002, DATE_START, 360, Daypart.EM, "Morning Report",
          30, 216, "aired", Station.KHQ⟩ : Spot)] trivial_rng ()).1.filter
        (fun r => decide (r.station = st ∧ r.daypart = dp ∧ r.date = d))).length = 1) ∧
    (∀ (st : Station) (dp : Daypart),
      0 < total_booked_of [(⟨100001, 1002, DATE_START, 360, Daypart.EM, "Morning Report",
          30, 216, "aired", Station.KHQ⟩ : Spot)] st dp →
      (((generate_inventory [(⟨100001, 1002, DATE_START, 360, Daypart.EM, "Morning Report",
          30, 216, "aired", Station.KHQ⟩ : Spot)] trivial_rng ()).1.filter
        (fun r => decide (r.station = st ∧ r.daypart = dp))).map InvRow.total_avails).sum =
        round ((total_booked_of [(⟨100001, 1002, DATE_START, 360, Daypart.EM,
          "Morning Report", 30, 216, "aired", Station.KHQ⟩ : Spot)] st dp : ℚ) /
            SELLOUT_TARGETS dp)) ∧
    (∀ (st : Station) (dp : Daypart),
      total_booked_of [(⟨100001, 1002, DATE_START, 360, Daypart.EM, "Morning Report",
          30, 216, "aired", Station.KHQ⟩ : Spot)] st dp = 0 →
      (((generate_inventory [(⟨100001, 1002, DATE_START, 360, Daypart.EM, "Morning Report",
          30, 216, "aired", Station.KHQ⟩ : Spot)] trivial_rng ()).1.filter
        (fun r => decide (r.station = st ∧ r.daypart = dp))).map InvRow.total_avails).sum =
        (n_days : ℤ)) ∧
    (∀ row ∈ (generate_inventory [(⟨100001, 1002, DATE_START, 360, Daypart.EM,
        "Morning Report", 30, 216, "aired", Station.KHQ⟩ : Spot)] trivial_rng ()).1,
      row.date ∈ all_dates) := by
  have hd : ∀ sp ∈ [(⟨100001, 1002, DATE_START, 360, Daypart.EM, "Morning Report", 30, 216,
      "aired", Station.KHQ⟩ : Spot)], DATE_START ≤ sp.air_date ∧ sp.air_date ≤ DATE_END := by
    decide
  have h := inventory_rows_and_totals trivial_rng trivial_rng_spec
    [(⟨100001, 1002, DATE_START, 360, Daypart.EM, "Morning Report", 30, 216,
      "aired", Station.KHQ⟩ : Spot)] () hd
  exact ⟨trivial_rng_spec, hd, h.1, h.2.1, h.2.2.1, h.2.2.2⟩

-- ── C4: inventory remaining is consistent and non-negative ─────────────────

/-- C4: every inventory row satisfies `remaining = total_avails − booked`
and `remaining ≥ 0` (equivalently `total_avails ≥ booked`). -/
theorem inventory_remaining_consistent {σ : Type} (g : RNG σ) (hg : RNGSpec g)
    (spots : List Spot) (s : σ) :
    ∀ row ∈ (generate_inventory spots g s).1,
      row.remaining = row.total_avails - (row.booked : ℤ) ∧ 0 ≤ row.remaining := by
  unfold generate_inventory
  refine inv_foldl_forall g spots _ ?_ station_daypart_pairs ([], s) ?_
  · intro st dp s' r hr
    have hf := inventory_pair_rows_fields g hg spots st dp s' r hr
    exact ⟨hf.2.2.1, hf.2.2.2.1⟩
  · intro r hr
    exact absurd hr (List.not_mem_nil r)

/-- Concrete instantiation of the remaining-consistency invariant on the
no-spots run. -/
theorem inventory_remaining_consistent_witness :
    RNGSpec trivial_rng ∧
    ∀ row ∈ (generate_inventory [] trivial_rng ()).1,
      row.remaining = row.total_avails - (row.booked : ℤ) ∧ 0 ≤ row.remaining :=
  ⟨trivial_rng_spec, inventory_remaining_consistent trivial_rng trivial_rng_spec [] ()⟩

-- ── C8: local-advertiser station weighting ─────────────────────────────────

/-- C8 counterexample: the station-selection weights for local advertisers
are not monotone in market size — KHQ-TV has the largest market-size weight
(0.35 against KULR-TV's 0.22) yet receives probability 0.10 while KULR-TV
receives 0.25. -/
theorem local_weights_not_monotone :
    stationSize Station.KULR < stationSize Station.KHQ ∧
    local_station_prob Station.KHQ < local_station_prob Station.KULR := by
  constructor <;> with_unfolding_all decide

/-- C8 amended: the local-advertiser station weighting is weighted away
from the largest market: KHQ-TV (the largest market) receives the smallest
probability, and among the remaining four stations the probability is
monotonically non-decreasing in market-size weight. -/
theorem local_weights_monotone_except_largest :
    (∀ st : Station, local_station_prob Station.KHQ ≤ local_station_prob st) ∧
    (∀ s1 s2 : Station, s1 ≠ Station.KHQ → stationSize s2 ≤ stationSize s1 →
      local_station_prob s2 ≤ local_station_prob s1) := by
  constructor
  · intro st
    cases st <;> with_unfolding_all decide
  · intro s1 s2 h1 h2
    cases s1 <;> cases s2 <;>
      first
        | exact absurd rfl h1
        | (with_unfolding_all decide)
        | exact absurd h2 (by with_unfolding_all decide)

-- ── C9: the validator reports every failed check ───────────────────────────

theorem errors_foldl_length :
    ∀ (cks : List (ℕ × String)) (acc : List String),
      (cks.foldl (fun acc ck => if 0 < ck.1 then acc ++ [ck.2] else acc) acc).length =
        acc.length + (cks.filter (fun ck => decide (0 < ck.1))).length := by
  intro cks
  induction cks with
  | nil => intro acc; simp
  | cons c t ih =>
    intro acc
    rw [List.foldl_cons, List.filter_cons]
    by_cases h : 0 < c.1
    · rw [if_pos h, if_pos (by simp [h]), ih]
      simp only [List.length_append, List.length_cons, List.length_nil]
      omega
    · rw [if_neg h, if_neg (by simp [h]), ih]

theorem filter_pos_len_zero :
    ∀ l : List ℕ, ((l.filter (fun n => decide (0 < n))).length = 0 ↔ ∀ n ∈ l, n = 0) := by
  intro l
  induction l with
  | nil => simp
  | cons a t ih =>
    rw [List.filter_cons]
    by_cases h : 0 < a
    · rw [if_pos (by simp [h])]
      simp only [List.length_cons]
      constructor
      · intro hc; omega
      · intro hall
        exact absurd (hall a (List.mem_cons_self a t)) (by omega)
    · rw [if_neg (by simp [h])]
      rw [ih]
      constructor
      · intro hall n hn
        rcases List.mem_cons.mp hn with h1 | h1
        · subst h1; omega
        · exact hall n h1
      · intro hall n hn
        exact hall n (List.mem_cons_of_mem a hn)

/-- C9: `validate_all` runs all seven checks with no short-circuiting,
its error list carries exactly one message per failed check, and it passes
exactly when none of the seven checks finds a violation. -/
theorem validate_all_reports_all_checks (orders_df : List Order) (spots_df : List Spot)
    (inventory_df : List InvRow) :
    ((validate_all orders_df spots_df inventory_df).1 = true ↔
      (invalid_ref_count orders_df spots_df = 0 ∧
       out_of_range_count orders_df spots_df = 0 ∧
       station_mismatch_count orders_df spots_df = 0 ∧
       null_order_count spots_df = 0 ∧
       negative_remaining_count inventory_df = 0 ∧
       remaining_mismatch_count inventory_df = 0 ∧
       future_not_scheduled_count spots_df = 0)) ∧
    (validate_all orders_df spots_df inventory_df).2.length =
      ((check_counts orders_df spots_df inventory_df).filter
        (fun n => decide (0 < n))).length := by
  have hlen : (validate_all orders_df spots_df inventory_df).2.length =
      ((check_messages orders_df spots_df inventory_df).filter
        (fun ck => decide (0 < ck.1))).length := by
    have h := errors_foldl_length (check_messages orders_df spots_df inventory_df) []
    simpa using h
  have hcnt : ((check_messages orders_df spots_df inventory_df).filter
      (fun ck => decide (0 < ck.1))).length =
      ((check_counts orders_df spots_df inventory_df).filter
        (fun n => decide (0 < n))).length := by
    rw [← List.countP_eq_length_filter, ← List.countP_eq_length_filter]
    have hmap : (check_messages orders_df spots_df inventory_df).map Prod.fst =
        check_counts orders_df spots_df inventory_df := rfl
    rw [← hmap, List.countP_map]
    rfl
  constructor
  · have hpass : (validate_all orders_df spots_df inventory_df).1 =
        (validate_all orders_df spots_df inventory_df).2.isEmpty := rfl
    rw [hpass]
    rw [show ((validate_all orders_df spots_df inventory_df).2.isEmpty = true ↔
        (validate_all orders_df spots_df inventory_df).2.length = 0) from by
      rw [List.isEmpty_iff_length_eq_zero]]
    rw [hlen, hcnt, filter_pos_len_zero]
    simp only [check_counts, List.mem_cons, List.not_mem_nil, forall_eq_or_imp,
      forall_eq, IsEmpty.forall_iff, implies_true, and_true]
  · rw [hlen, hcnt]

/-- Concrete instantiation of determinism at seed 42: the two runs are the
same expression, so no table evaluation is needed. -/
theorem pipeline_deterministic_witness :
    (run_pipeline trivial_rng (fun _ => ()) 42).1 =
      (run_pipeline trivial_rng (fun _ => ()) 42).1 ∧
    (run_pipeline trivial_rng (fun _ => ()) 42).2.1 =
      (run_pipeline trivial_rng (fun _ => ()) 42).2.1 ∧
    (run_pipeline trivial_rng (fun _ => ()) 42).2.2 =
      (run_pipeline trivial_rng (fun _ => ()) 42).2.2 :=
  pipeline_deterministic trivial_rng (fun _ => ()) 42 _ _ rfl rfl

/-- Calendar sanity: the day-number conversions agree with the proleptic
Gregorian calendar on the dates the generator uses, and the primary range
spans 456 days. -/
theorem calendar_examples :
    daysFromCivil 1970 1 1 = 0 ∧
    civilFromDays (daysFromCivil 2024 1 1) = (2024, 1, 1) ∧
    civilFromDays (daysFromCivil 2024 2 29) = (2024, 2, 29) ∧
    civilFromDays (daysFromCivil 2024 12 31) = (2024, 12, 31) ∧
    civilFromDays (daysFromCivil 2025 3 31) = (2025, 3, 31) ∧
    DATE_END - DATE_START = 455 ∧ n_days = 456 ∧
    TODAY_CUTOFF = DATE_START + 411 := by
  refine ⟨?_, ?_, ?_, ?_, ?_, ?_, ?_, ?_⟩ <;> decide

/-- The configuration is well formed: the per-daypart volume weights are a
probability vector and the revenue shares sum to one. -/
theorem config_weights_normalised :
    (daypart_codes.map DAYPART_VOLUME_WEIGHTS).sum = 1 ∧
    (daypart_codes.map (fun dp => (DAYPARTS dp).revenue_share)).sum = 1 ∧
    (SPOT_LENGTH_WEIGHTS.sum = 1 ∧ local_weights.sum = 1) := by
  refine ⟨?_, ?_, ?_, ?_⟩ <;> with_unfolding_all decide

end WOGen
